import Mathlib

/-!
# CompilerInvocation: resolution of frontend arguments

A shallow embedding of `lib/Frontend/CompilerInvocation.cpp`.

* The option matcher (`llvm::opt::OptTable::ParseArgs`), the diagnostic
  engine and the host triple lookup are external to the file; they enter the
  model as data: the matcher is a function from the argument strings to its
  result, the diagnostic engine is the list of diagnostics emitted so far,
  the host triple is a string handed to the constructor.
* Reading past the end of a vector (`getArgString` at an index that is not an
  argument, `Arg::getValue` on an entry without values) is undefined in the
  C++ code; the model returns `none` there, so `some` means that the call ran
  to its `return`.
-/

set_option autoImplicit false
set_option linter.dupNamespace false

namespace Swift

/-! ## Data model -/

/-- Option identities of the driver option table.  The constructors named
after an `OPT_` constant are the ones `CompilerInvocation.cpp` mentions;
`OPT_other n` stands for every further identity of the catalog. -/
inductive OptID where
  | OPT_UNKNOWN
  | OPT_INPUT
  | OPT_o
  | OPT_module_name
  | OPT_serialize_diagnostics
  | OPT_target
  | OPT_I
  | OPT_F
  | OPT_sdk
  | OPT_module_cache_path
  | OPT_parse_as_library
  | OPT_parse_stdlib
  | OPT_Xcc
  | OPT_debug_constraints
  | OPT_l
  | OPT_framework
  | OPT_module_source_list
  | OPT_other (n : Nat)
  deriving DecidableEq, Repr

/-- One matched entry (`llvm::opt::Arg`): its option identity, its value
strings, and the text `Arg::getAsString` renders for it. -/
structure Arg where
  Opt : OptID
  Values : List String
  AsString : String
  deriving DecidableEq, Repr

/-- The member `Arg::getValue()`: the first value; `none` when the entry has no value
(the C++ call indexes an empty vector there). -/
def Arg.getValue (A : Arg) : Option String := A.Values.head?

/-- What `OptTable::ParseArgs` hands back: the matched sequence in argument
order, and the two `unsigned` out-parameters. -/
structure ParseResult where
  Args : List Arg
  MissingIndex : Nat
  MissingCount : Nat
  deriving DecidableEq, Repr

/-- The option table, seen through the one member the file calls. -/
structure OptTable where
  ParseArgs : List String → ParseResult

/-- The two diagnostics the file emits, with their format arguments. -/
inductive Diagnostic where
  | error_missing_arg_value (arg : String) (count : Nat)
  | error_unknown_arg (arg : String)
  deriving DecidableEq, Repr

inductive SourceFileKind where
  | Main
  | Library
  deriving DecidableEq, Repr

inductive LibraryKind where
  | Library
  | Framework
  deriving DecidableEq, Repr

structure LinkLibrary where
  Name : String
  Kind : LibraryKind
  deriving DecidableEq, Repr

/-- Modelled from the spec: the declaration of `FrontendOptions` lives in a
header that is not part of the sources at hand; the fields are the ones
`ParseFrontendArgs` assigns, with the types of the data model (optional
strings, an ordered sequence of strings). -/
structure FrontendOptions where
  OutputFilename : Option String
  ModuleName : Option String
  SerializedDiagnosticsPath : Option String
  InputFilenames : List String
  deriving DecidableEq, Repr

/-- Modelled from the spec: `LangOptions`, reduced to the one member the file
writes. -/
structure LangOptions where
  DebugConstraintSolver : Bool
  deriving DecidableEq, Repr

/-- Modelled from the spec: the declaration of `CompilerInvocation` lives in
`swift/Frontend/Frontend.h`, which is not part of the sources at hand; the
fields are the ones the file reads or writes, with the types of the data
model. -/
structure CompilerInvocation where
  TargetTriple : String
  FrontendOpts : FrontendOptions
  LangOpts : LangOptions
  ImportSearchPaths : List String
  FrameworkSearchPaths : List String
  ExtraClangArgs : List String
  SDKPath : Option String
  ClangModuleCachePath : Option String
  ModuleSourceListPath : Option String
  RuntimeIncludePath : Option String
  LinkLibraries : List LinkLibrary
  InputKind : SourceFileKind
  ParseStdlib : Bool
  deriving DecidableEq, Repr

/-- Modelled from the spec: the member initialisers of the header (every
optional field unset, every list empty, `Main`, both flags false).  The
triple is left empty here; the constructor below fills it. -/
def memberDefaults : CompilerInvocation :=
  { TargetTriple := ""
    FrontendOpts :=
      { OutputFilename := none
        ModuleName := none
        SerializedDiagnosticsPath := none
        InputFilenames := [] }
    LangOpts := { DebugConstraintSolver := false }
    ImportSearchPaths := []
    FrameworkSearchPaths := []
    ExtraClangArgs := []
    SDKPath := none
    ClangModuleCachePath := none
    ModuleSourceListPath := none
    RuntimeIncludePath := none
    LinkLibraries := []
    InputKind := SourceFileKind.Main
    ParseStdlib := false }

/-- The constructor `CompilerInvocation::CompilerInvocation()`:
`TargetTriple = llvm::sys::getDefaultTargetTriple()`, the host value being
the argument. -/
def CompilerInvocation.CompilerInvocation (DefaultTargetTriple : String) :
    CompilerInvocation :=
  { memberDefaults with TargetTriple := DefaultTargetTriple }

/-! ## Setters of the header -/

/-- Modelled from the spec: `setTargetTriple` (scalar overwrite). -/
def setTargetTriple (inv : CompilerInvocation) (Triple : String) : CompilerInvocation :=
  { inv with TargetTriple := Triple }

/-- Modelled from the spec: `setSDKPath` (scalar overwrite). -/
def setSDKPath (inv : CompilerInvocation) (Path : String) : CompilerInvocation :=
  { inv with SDKPath := some Path }

/-- Modelled from the spec: `setClangModuleCachePath` (scalar overwrite). -/
def setClangModuleCachePath (inv : CompilerInvocation) (Path : String) : CompilerInvocation :=
  { inv with ClangModuleCachePath := some Path }

/-- Modelled from the spec: `setModuleSourceListPath` (scalar overwrite). -/
def setModuleSourceListPath (inv : CompilerInvocation) (Path : String) : CompilerInvocation :=
  { inv with ModuleSourceListPath := some Path }

/-- Modelled from the spec: `setInputKind` (enum set). -/
def setInputKind (inv : CompilerInvocation) (K : SourceFileKind) : CompilerInvocation :=
  { inv with InputKind := K }

/-- Modelled from the spec: `setParseStdlib` (monotonic flag set). -/
def setParseStdlib (inv : CompilerInvocation) : CompilerInvocation :=
  { inv with ParseStdlib := true }

/-- Modelled from the spec: `addLinkLibrary` (append to the one shared
list). -/
def addLinkLibrary (inv : CompilerInvocation) (Name : String) (Kind : LibraryKind) :
    CompilerInvocation :=
  { inv with LinkLibraries := inv.LinkLibraries ++ [{ Name := Name, Kind := Kind }] }

/-! ## The members of `llvm::opt::ArgList` the file calls -/

/-- The member `ArgList::getLastArg(Id)`: one scan from the front that keeps
the latest entry whose option matches.  An entry carries its unaliased option
and none of the identities the file asks for is a group, so `matches` is
equality of identities. -/
def getLastArg (Args : List Arg) (Id : OptID) : Option Arg :=
  Args.foldl (fun Res A => if A.Opt = Id then some A else Res) none

/-- The member `ArgList::hasArg(Id)`: `getLastArg(Id) != nullptr`. -/
def hasArg (Args : List Arg) (Id : OptID) : Bool :=
  (getLastArg Args Id).isSome

/-- The range `filtered_begin(Id) .. filtered_end()`: the entries whose
option matches, in sequence order. -/
def filtered (Args : List Arg) (Id : OptID) : List Arg :=
  Args.filter (fun A => decide (A.Opt = Id))

/-- The member `ArgList::getArgString(Index)` of the parsed list: the argument
string at that index; `none` when there is no such argument. -/
def getArgString (Args : List String) (Index : Nat) : Option String :=
  Args[Index]?

/-! ## `ParseFrontendArgs` -/

/-- The loop over the positional entries: `InputFilenames.push_back` of each
value. -/
def pushInputs : List String → List Arg → Option (List String)
  | Names, [] => some Names
  | Names, A :: rest =>
    match A.getValue with
    | none => none
    | some v => pushInputs (Names ++ [v]) rest

/-- The statement `if (const Arg *A = Args.getLastArg(Id)) Field = A->getValue();`
as a function of the field: the field after the statement. -/
def assignLastValue (Args : List Arg) (Id : OptID) (Field : Option String) :
    Option (Option String) :=
  match getLastArg Args Id with
  | none => some Field
  | some A => A.getValue.map some

/-- The static function `ParseFrontendArgs`: three statements of the shape
above, on `OutputFilename`, `ModuleName` and `SerializedDiagnosticsPath`, then
the loop over the positional entries, then `return false`.  The result pairs
the returned `bool` with the options after the call; the diagnostic engine is
an argument of the C++ function that its body never uses. -/
def ParseFrontendArgs (Opts : FrontendOptions) (Args : List Arg) :
    Option (Bool × FrontendOptions) :=
  (assignLastValue Args OptID.OPT_o Opts.OutputFilename).bind fun Out =>
  (assignLastValue Args OptID.OPT_module_name Opts.ModuleName).bind fun Mod =>
  (assignLastValue Args OptID.OPT_serialize_diagnostics
    Opts.SerializedDiagnosticsPath).bind fun Ser =>
  (pushInputs Opts.InputFilenames (filtered Args OptID.OPT_INPUT)).bind fun Names =>
  some (false,
    { OutputFilename := Out
      ModuleName := Mod
      SerializedDiagnosticsPath := Ser
      InputFilenames := Names })

/-! ## `CompilerInvocation::parseArgs` -/

/-- One iteration of the loop over the parsed entries: the `switch` on the
option identity. -/
def walkStep (inv : CompilerInvocation) (InputArg : Arg) : Option CompilerInvocation :=
  match InputArg.Opt with
  | OptID.OPT_target => InputArg.getValue.map (fun v => setTargetTriple inv v)
  | OptID.OPT_I =>
    InputArg.getValue.map (fun v => { inv with ImportSearchPaths := inv.ImportSearchPaths ++ [v] })
  | OptID.OPT_F =>
    InputArg.getValue.map
      (fun v => { inv with FrameworkSearchPaths := inv.FrameworkSearchPaths ++ [v] })
  | OptID.OPT_sdk => InputArg.getValue.map (fun v => setSDKPath inv v)
  | OptID.OPT_module_cache_path => InputArg.getValue.map (fun v => setClangModuleCachePath inv v)
  | OptID.OPT_parse_as_library => some (setInputKind inv SourceFileKind.Library)
  | OptID.OPT_parse_stdlib => some (setParseStdlib inv)
  | OptID.OPT_Xcc =>
    InputArg.getValue.map (fun v => { inv with ExtraClangArgs := inv.ExtraClangArgs ++ [v] })
  | OptID.OPT_debug_constraints =>
    some { inv with LangOpts := { inv.LangOpts with DebugConstraintSolver := true } }
  | OptID.OPT_l => InputArg.getValue.map (fun v => addLinkLibrary inv v LibraryKind.Library)
  | OptID.OPT_framework =>
    InputArg.getValue.map (fun v => addLinkLibrary inv v LibraryKind.Framework)
  | OptID.OPT_module_source_list => InputArg.getValue.map (fun v => setModuleSourceListPath inv v)
  | _ => some inv

/-- The loop `for (auto InputArg : *ParsedArgs)`. -/
def walk : CompilerInvocation → List Arg → Option CompilerInvocation
  | inv, [] => some inv
  | inv, A :: rest =>
    match walkStep inv A with
    | none => none
    | some inv1 => walk inv1 rest

/-- The member function `CompilerInvocation::parseArgs`.  `inv` is the object
before the call and `Diags` the diagnostics emitted before it; the result is
the returned `bool` (`true` is failure), the object after the call and the
diagnostics after it. -/
def parseArgs (Table : OptTable) (inv : CompilerInvocation) (Args : List String)
    (Diags : List Diagnostic) : Option (Bool × CompilerInvocation × List Diagnostic) :=
  if Args.isEmpty then
    some (false, inv, Diags)
  else
    let ParsedArgs := Table.ParseArgs Args
    if ParsedArgs.MissingCount ≠ 0 then
      match getArgString Args ParsedArgs.MissingIndex with
      | none => none
      | some s =>
        some (true, inv,
          Diags ++ [Diagnostic.error_missing_arg_value s ParsedArgs.MissingCount])
    else if hasArg ParsedArgs.Args OptID.OPT_UNKNOWN then
      some (true, inv,
        Diags ++ (filtered ParsedArgs.Args OptID.OPT_UNKNOWN).map
          (fun A => Diagnostic.error_unknown_arg A.AsString))
    else
      match ParseFrontendArgs inv.FrontendOpts ParsedArgs.Args with
      | none => none
      | some (true, Opts) => some (true, { inv with FrontendOpts := Opts }, Diags)
      | some (false, Opts) =>
        match walk { inv with FrontendOpts := Opts } ParsedArgs.Args with
        | none => none
        | some inv1 => some (false, inv1, Diags)

/-! ## The contract of the matcher -/

/-- The identities on whose entries the file calls `getValue`: the three of
`getLastArg` in `ParseFrontendArgs`, the positional entries, and the cases of
the `switch` that read `InputArg->getValue()`. -/
def carriesValue : OptID → Bool
  | OptID.OPT_o => true
  | OptID.OPT_module_name => true
  | OptID.OPT_serialize_diagnostics => true
  | OptID.OPT_INPUT => true
  | OptID.OPT_target => true
  | OptID.OPT_I => true
  | OptID.OPT_F => true
  | OptID.OPT_sdk => true
  | OptID.OPT_module_cache_path => true
  | OptID.OPT_Xcc => true
  | OptID.OPT_l => true
  | OptID.OPT_framework => true
  | OptID.OPT_module_source_list => true
  | _ => false

/-- Every matched entry consumes at least one argument string, so the matched
sequence is no longer than the argument list. -/
def EntriesWithinArgs (Args : List String) (R : ParseResult) : Prop :=
  R.Args.length ≤ Args.length

/-- A non-zero missing count comes with the index of an argument. -/
def MissingIndexValid (Args : List String) (R : ParseResult) : Prop :=
  R.MissingCount ≠ 0 → R.MissingIndex < Args.length

/-- Arity: a matched entry of a value-carrying identity has a value. -/
def ValuesPresent (R : ParseResult) : Prop :=
  ∀ A ∈ R.Args, carriesValue A.Opt = true → A.Values ≠ []

/-- What the file takes for granted of `OptTable::ParseArgs`. -/
def MatcherContract (Args : List String) (R : ParseResult) : Prop :=
  EntriesWithinArgs Args R ∧ MissingIndexValid Args R ∧ ValuesPresent R

instance (Args : List String) (R : ParseResult) : Decidable (EntriesWithinArgs Args R) :=
  inferInstanceAs (Decidable (R.Args.length ≤ Args.length))

instance (Args : List String) (R : ParseResult) : Decidable (MissingIndexValid Args R) :=
  inferInstanceAs (Decidable (R.MissingCount ≠ 0 → R.MissingIndex < Args.length))

instance (R : ParseResult) : Decidable (ValuesPresent R) :=
  inferInstanceAs (Decidable (∀ A ∈ R.Args, carriesValue A.Opt = true → A.Values ≠ []))

instance (Args : List String) (R : ParseResult) : Decidable (MatcherContract Args R) :=
  inferInstanceAs
    (Decidable (EntriesWithinArgs Args R ∧ MissingIndexValid Args R ∧ ValuesPresent R))

/-! ## A small catalog for concrete evaluations -/

/-- Spellings of the example catalog that take no value. -/
def exampleFlag : String → Option OptID
  | "-parse-as-library" => some OptID.OPT_parse_as_library
  | "-parse-stdlib" => some OptID.OPT_parse_stdlib
  | "-debug-constraints" => some OptID.OPT_debug_constraints
  | "-v" => some (OptID.OPT_other 0)
  | _ => none

/-- Spellings of the example catalog that take the next argument as their
value. -/
def exampleSeparate : String → Option OptID
  | "-o" => some OptID.OPT_o
  | "-module-name" => some OptID.OPT_module_name
  | "-serialize-diagnostics" => some OptID.OPT_serialize_diagnostics
  | "-target" => some OptID.OPT_target
  | "-I" => some OptID.OPT_I
  | "-F" => some OptID.OPT_F
  | "-sdk" => some OptID.OPT_sdk
  | "-module-cache-path" => some OptID.OPT_module_cache_path
  | "-Xcc" => some OptID.OPT_Xcc
  | "-l" => some OptID.OPT_l
  | "-framework" => some OptID.OPT_framework
  | "-module-source-list" => some OptID.OPT_module_source_list
  | _ => none

/-- The example matcher, `Index` being the position of the head of the
remaining arguments.  A spelling in need of a value that is the last argument
ends the scan with its index and a missing count of one; any other argument
that starts with a dash is an unknown entry, the rest are positional. -/
def exampleParse : Nat → List String → ParseResult
  | _, [] => { Args := [], MissingIndex := 0, MissingCount := 0 }
  | Index, [s] =>
    match exampleFlag s with
    | some Id => { Args := [{ Opt := Id, Values := [], AsString := s }],
                   MissingIndex := 0, MissingCount := 0 }
    | none =>
      match exampleSeparate s with
      | some _ => { Args := [], MissingIndex := Index, MissingCount := 1 }
      | none =>
        { Args := [{ Opt := if s.data.head? = some '-' then OptID.OPT_UNKNOWN
                            else OptID.OPT_INPUT,
                     Values := [s], AsString := s }],
          MissingIndex := 0, MissingCount := 0 }
  | Index, s :: v :: rest =>
    match exampleFlag s with
    | some Id =>
      let R := exampleParse (Index + 1) (v :: rest)
      { R with Args := { Opt := Id, Values := [], AsString := s } :: R.Args }
    | none =>
      match exampleSeparate s with
      | some Id =>
        let R := exampleParse (Index + 2) rest
        { R with Args := { Opt := Id, Values := [v], AsString := s ++ " " ++ v } :: R.Args }
      | none =>
        let R := exampleParse (Index + 1) (v :: rest)
        { R with Args := { Opt := if s.data.head? = some '-' then OptID.OPT_UNKNOWN
                                  else OptID.OPT_INPUT,
                           Values := [s], AsString := s } :: R.Args }

/-- The example catalog as an option table. -/
def exampleTable : OptTable := { ParseArgs := exampleParse 0 }

/-- An argument list for the example catalog: repeated scalar flags, repeated
list flags, both link families, and positional arguments in between. -/
def exampleArgs : List String :=
  ["-target", "t1", "a.swift", "-I", "p", "-o", "out1", "-l", "z", "-framework", "Foo",
   "-I", "p", "-parse-as-library", "-sdk", "s", "-o", "out2", "b.swift", "-target", "t2",
   "-parse-as-library", "-l", "m", "a.swift"]

/-- The list `exampleArgs` with the library-mode flag given once instead of
twice. -/
def exampleArgsOnce : List String :=
  ["-target", "t1", "a.swift", "-I", "p", "-o", "out1", "-l", "z", "-framework", "Foo",
   "-I", "p", "-sdk", "s", "-o", "out2", "b.swift", "-target", "t2",
   "-parse-as-library", "-l", "m", "a.swift"]

/-- What `exampleArgs` resolves to on the object constructed with host triple
`host`. -/
def exampleResolved : CompilerInvocation :=
  { TargetTriple := "t2"
    FrontendOpts :=
      { OutputFilename := some "out2"
        ModuleName := none
        SerializedDiagnosticsPath := none
        InputFilenames := ["a.swift", "b.swift", "a.swift"] }
    LangOpts := { DebugConstraintSolver := false }
    ImportSearchPaths := ["p", "p"]
    FrameworkSearchPaths := []
    ExtraClangArgs := []
    SDKPath := some "s"
    ClangModuleCachePath := none
    ModuleSourceListPath := none
    RuntimeIncludePath := none
    LinkLibraries :=
      [{ Name := "z", Kind := LibraryKind.Library },
       { Name := "Foo", Kind := LibraryKind.Framework },
       { Name := "m", Kind := LibraryKind.Library }]
    InputKind := SourceFileKind.Library
    ParseStdlib := false }

/-! ## Reading the claims -/

/-- The entries of the sequence with the given identity, in sequence
order. -/
def occurrences (L : List Arg) (Id : OptID) : List Arg :=
  L.filter (fun A => decide (A.Opt = Id))

/-- The last entry of the sequence with the given identity: of `k ≥ 1`
occurrences the `k`-th; `none` when the identity does not occur. -/
def lastOccurrence (L : List Arg) (Id : OptID) : Option Arg :=
  (occurrences L Id)[(occurrences L Id).length - 1]?

/-- The link request an entry stands for: its value with kind `Library` for
`-l`, with kind `Framework` otherwise (read on `-framework` entries). -/
def linkRequest (A : Arg) : Option LinkLibrary :=
  A.getValue.map (fun v =>
    { Name := v
      Kind := if A.Opt = OptID.OPT_l then LibraryKind.Library else LibraryKind.Framework })

/-- An argument list for the example catalog with the two monotonic flags and
an option the resolver has no case for (`-v`). -/
def exampleArgsFlags : List String :=
  ["-parse-stdlib", "x.swift", "-v", "-I", "p", "-debug-constraints", "-o", "out"]

/-- What `exampleArgsFlags` resolves to on the object constructed with host
triple `host`. -/
def exampleResolvedFlags : CompilerInvocation :=
  { TargetTriple := "host"
    FrontendOpts :=
      { OutputFilename := some "out"
        ModuleName := none
        SerializedDiagnosticsPath := none
        InputFilenames := ["x.swift"] }
    LangOpts := { DebugConstraintSolver := true }
    ImportSearchPaths := ["p"]
    FrameworkSearchPaths := []
    ExtraClangArgs := []
    SDKPath := none
    ClangModuleCachePath := none
    ModuleSourceListPath := none
    RuntimeIncludePath := none
    LinkLibraries := []
    InputKind := SourceFileKind.Main
    ParseStdlib := true }

/-- An object that is not fresh: the runtime include path, the SDK path,
an import search path and a link library have been set before. -/
def examplePreset : CompilerInvocation :=
  { CompilerInvocation.CompilerInvocation "host" with
    RuntimeIncludePath := some "/opt/toolchain/lib/swift"
    SDKPath := some "sdk0"
    ImportSearchPaths := ["q"]
    LinkLibraries := [{ Name := "c", Kind := LibraryKind.Library }] }

/-- What `exampleArgsFlags` resolves to on `examplePreset`. -/
def examplePresetResolved : CompilerInvocation :=
  { examplePreset with
    FrontendOpts :=
      { OutputFilename := some "out"
        ModuleName := none
        SerializedDiagnosticsPath := none
        InputFilenames := ["x.swift"] }
    LangOpts := { DebugConstraintSolver := true }
    ImportSearchPaths := ["q", "p"]
    ParseStdlib := true }

/-- The order in which a resolution moves the object: a flag that is set stays
set, `Library` stays `Library`, and each list is continued (the list before
is an initial segment of the list after). -/
def Grows (before after : CompilerInvocation) : Prop :=
  (before.ParseStdlib = true → after.ParseStdlib = true) ∧
  (before.LangOpts.DebugConstraintSolver = true →
    after.LangOpts.DebugConstraintSolver = true) ∧
  (before.InputKind = SourceFileKind.Library → after.InputKind = SourceFileKind.Library) ∧
  (∃ t, after.FrontendOpts.InputFilenames = before.FrontendOpts.InputFilenames ++ t) ∧
  (∃ t, after.ImportSearchPaths = before.ImportSearchPaths ++ t) ∧
  (∃ t, after.FrameworkSearchPaths = before.FrameworkSearchPaths ++ t) ∧
  (∃ t, after.ExtraClangArgs = before.ExtraClangArgs ++ t) ∧
  (∃ t, after.LinkLibraries = before.LinkLibraries ++ t)

/-- The identities the resolver has an explicit case for: those read by
`ParseFrontendArgs` (three `getLastArg` and the positional entries) and those
of the `case` labels of the `switch`. -/
def hasExplicitCase (Id : OptID) : Bool :=
  carriesValue Id ||
    (decide (Id = OptID.OPT_parse_as_library) || (decide (Id = OptID.OPT_parse_stdlib) ||
      decide (Id = OptID.OPT_debug_constraints)))

/-- An entry the resolver ignores: its identity is known to the catalog and
has no explicit case. -/
def ignoredEntry (A : Arg) : Bool :=
  !hasExplicitCase A.Opt && !decide (A.Opt = OptID.OPT_UNKNOWN)

/-- The list `exampleArgsFlags` without the option the resolver has no case
for. -/
def exampleArgsFlagsOnly : List String :=
  ["-parse-stdlib", "x.swift", "-I", "p", "-debug-constraints", "-o", "out"]

/-- The left-to-right overwrite policy on one optional field, as a fold over
the sequence: each entry of the identity, in sequence order, overwrites the
field with its value; the other entries leave it.  This is the policy in
words; `walkStep` is the code that follows it for the triple and the three
paths of the `switch`. -/
def overwriteFold (Id : OptID) : Option String → List Arg → Option (Option String)
  | Field, [] => some Field
  | Field, A :: rest =>
    if A.Opt = Id then
      match A.getValue with
      | none => none
      | some v => overwriteFold Id (some v) rest
    else overwriteFold Id Field rest

/-- The entries that append to a list of the object: the positional entries,
the three list flags and the two link flags. -/
def appendsToList (A : Arg) : Bool :=
  decide (A.Opt = OptID.OPT_INPUT) || (decide (A.Opt = OptID.OPT_I) ||
    (decide (A.Opt = OptID.OPT_F) || (decide (A.Opt = OptID.OPT_Xcc) ||
      (decide (A.Opt = OptID.OPT_l) || decide (A.Opt = OptID.OPT_framework)))))

/-- An argument list for the example catalog none of whose entries appends to
a list: two scalar flags of `ParseFrontendArgs` and the flag that the walk
assigns in place. -/
def exampleArgsNoList : List String :=
  ["-o", "out", "-debug-constraints", "-module-name", "m"]

/-- What `exampleArgsNoList` resolves to on the object constructed with host
triple `host`, and again on that result. -/
def exampleResolvedNoList : CompilerInvocation :=
  { CompilerInvocation.CompilerInvocation "host" with
    FrontendOpts :=
      { OutputFilename := some "out"
        ModuleName := some "m"
        SerializedDiagnosticsPath := none
        InputFilenames := [] }
    LangOpts := { DebugConstraintSolver := true } }

/-- What `exampleArgsFlags` resolves to on `examplePresetResolved`, that is,
on `examplePreset` when resolved twice: the positional argument and
the import search path are there twice. -/
def examplePresetResolvedTwice : CompilerInvocation :=
  { examplePresetResolved with
    FrontendOpts :=
      { OutputFilename := some "out"
        ModuleName := none
        SerializedDiagnosticsPath := none
        InputFilenames := ["x.swift", "x.swift"] }
    ImportSearchPaths := ["q", "p", "p"] }

/-! ## `CompilerInvocation::setMainExecutablePath`

The path primitives are functions of the LLVM support library
(`llvm/Support/Path.h`), which is not part of the sources at hand.  They work
on the characters of the path; a read past the end of the path is `none`. -/

/-- Modelled from the spec: `is_separator` of the path library, for a host
whose separator is `/`. -/
def is_separator (c : Char) : Bool := c == '/'

/-- The test `is_separator(str[i])` where the C++ code guards it by a test of
the size: false when there is no such character. -/
def sepAt (str : List Char) (i : Nat) : Bool :=
  match str[i]? with
  | some c => is_separator c
  | none => false

/-- The loop of `StringRef::rfind(C, From)`, counting `i` down to zero. -/
def rfindLoop (str : List Char) : Nat → Option Nat
  | 0 => none
  | i + 1 => if sepAt str i = true then some i else rfindLoop str i

/-- Modelled from the spec: `StringRef::find_last_of(separators, From)`, the
last index below `min(From, size)` that holds a separator; `none` is
`npos`. -/
def find_last_of (str : List Char) (From : Nat) : Option Nat :=
  rfindLoop str (min From str.length)

/-- The loop of `StringRef::find(C, From)`, counting `i` up to the size;
the first argument is the number of indices left. -/
def findLoop (str : List Char) : Nat → Nat → Option Nat
  | 0, _ => none
  | left + 1, i => if sepAt str i = true then some i else findLoop str left (i + 1)

/-- Modelled from the spec: `StringRef::find_first_of(separators, From)`, the
first index from `min(From, size)` on that holds a separator; `none` is
`npos`. -/
def find_first_of (str : List Char) (From : Nat) : Option Nat :=
  findLoop str (str.length - min From str.length) (min From str.length)

/-- Modelled from the spec: `filename_pos` of the path library, the index at
which the last component starts.  For the empty string `str.size() - 1` wraps
in C++ and the search starts from `min(From, size) = 0`, as it does here. -/
def filename_pos (str : List Char) : Nat :=
  if str.length = 2 ∧ sepAt str 0 = true ∧ str[0]? = str[1]? then 0
  else if 0 < str.length ∧ sepAt str (str.length - 1) = true then str.length - 1
  else
    match find_last_of str (str.length - 1) with
    | none => 0
    | some pos => if pos = 1 ∧ sepAt str 0 = true then 0 else pos + 1

/-- Modelled from the spec: `root_dir_start` of the path library, the index of
the root directory if the path has one: none for `//`, the first separator
after the name for `//net...`, zero for `/...`. -/
def root_dir_start (str : List Char) : Option Nat :=
  if str.length = 2 ∧ sepAt str 0 = true ∧ str[0]? = str[1]? then none
  else if 3 < str.length ∧ sepAt str 0 = true ∧ str[0]? = str[1]? ∧ sepAt str 2 = false then
    find_first_of str 2
  else if 0 < str.length ∧ sepAt str 0 = true then some 0
  else none

/-- The loop of `parent_path_end` that steps back over separators other than
the root directory: `while (end_pos > 0 && (end_pos - 1) != root_dir_pos &&
is_separator(path[end_pos - 1])) --end_pos;`. -/
def skipSeparators (path : List Char) (root_dir_pos : Option Nat) : Nat → Option Nat
  | 0 => some 0
  | e + 1 =>
    if some e = root_dir_pos then some (e + 1)
    else
      match path[e]? with
      | none => none
      | some c => if is_separator c = true then skipSeparators path root_dir_pos e
                  else some (e + 1)

/-- Modelled from the spec: `parent_path_end` of the path library, the size of
the path without its last component; the inner `none` is `npos`. -/
def parent_path_end (path : List Char) : Option (Option Nat) :=
  let filename_was_sep : Option Bool :=
    if 0 < path.length then (path[filename_pos path]?).map is_separator else some false
  match filename_was_sep with
  | none => none
  | some was_sep =>
    match skipSeparators path (root_dir_start (path.take (filename_pos path)))
        (filename_pos path) with
    | none => none
    | some end_pos =>
      if end_pos = 1 ∧ root_dir_start (path.take (filename_pos path)) = some 0
          ∧ was_sep = true then some none
      else some (some end_pos)

/-- Modelled from the spec: `llvm::sys::path::remove_filename`, which strips
the last path component: the path is cut at `parent_path_end` unless that is
`npos`. -/
def remove_filename (path : List Char) : Option (List Char) :=
  match parent_path_end path with
  | none => none
  | some none => some path
  | some (some end_pos) => some (path.take end_pos)

/-- Modelled from the spec: `has_root_name` of the path library on a host
without drive letters: the path starts with two separators and a name. -/
def has_root_name (path : List Char) : Bool :=
  match path with
  | a :: b :: c :: _ => is_separator a && (a == b) && !is_separator c
  | _ => false

/-- One round of the loop of `llvm::sys::path::append`, for one component. -/
def appendComponent (path component : List Char) : List Char :=
  let path_has_sep : Bool :=
    match path.getLast? with
    | some c => is_separator c
    | none => false
  let component_has_sep : Bool :=
    match component.head? with
    | some c => is_separator c
    | none => false
  if path_has_sep = true then path ++ component.dropWhile is_separator
  else if (!component_has_sep && !(path.isEmpty || has_root_name component)) = true then
    path ++ '/' :: component
  else path ++ component

/-- Modelled from the spec: `llvm::sys::path::append(path, a, b)`, which
appends the components that are not empty, with a separator where one is
needed. -/
def append (path a b : List Char) : List Char :=
  ([a, b].filter (fun c => !c.isEmpty)).foldl appendComponent path

/-- Modelled from the spec: `setRuntimeIncludePath` (scalar overwrite). -/
def setRuntimeIncludePath (inv : CompilerInvocation) (Path : String) : CompilerInvocation :=
  { inv with RuntimeIncludePath := some Path }

/-- The member function `CompilerInvocation::setMainExecutablePath`: the
filename is removed twice, `lib` and `swift` are appended, and the result is
the runtime include path. -/
def setMainExecutablePath (inv : CompilerInvocation) (Path : String) :
    Option CompilerInvocation :=
  match remove_filename Path.data with
  | none => none
  | some LibPath1 =>
    match remove_filename LibPath1 with
    | none => none
    | some LibPath2 =>
      some (setRuntimeIncludePath inv (String.mk (append LibPath2 "lib".data "swift".data)))

/-- A path component: not empty and without a separator. -/
def isComponent (s : String) : Bool :=
  !s.data.isEmpty && s.data.all (fun c => !is_separator c)

/-- A path that is not empty and does not end in a separator. -/
def endsInName (s : String) : Bool :=
  match s.data.getLast? with
  | some c => !is_separator c
  | none => false

/-! ## Library members and totality -/

theorem foldl_keepLast (Id : OptID) (Args : List Arg) (Res : Option Arg) :
    Args.foldl (fun Res A => if A.Opt = Id then some A else Res) Res
      = ((Args.filter (fun A => decide (A.Opt = Id))).getLast?).or Res := by
  induction Args generalizing Res with
  | nil => simp
  | cons A rest ih =>
    rw [List.foldl_cons, ih]
    by_cases h : A.Opt = Id
    · rw [List.filter_cons_of_pos (by simpa using h), List.getLast?_cons, if_pos h]
      generalize (List.filter (fun A => decide (A.Opt = Id)) rest).getLast? = o
      cases o <;> rfl
    · rw [List.filter_cons_of_neg (by simpa using h), if_neg h]

theorem getLastArg_eq_getLast (Args : List Arg) (Id : OptID) :
    getLastArg Args Id = (Args.filter (fun A => decide (A.Opt = Id))).getLast? := by
  unfold getLastArg
  rw [foldl_keepLast]
  simp

theorem getLastArg_some_mem {Args : List Arg} {Id : OptID} {A : Arg}
    (h : getLastArg Args Id = some A) : A ∈ Args ∧ A.Opt = Id := by
  rw [getLastArg_eq_getLast] at h
  have hm := List.mem_of_getLast?_eq_some h
  simpa using hm

theorem hasArg_iff (Args : List Arg) (Id : OptID) :
    hasArg Args Id = true ↔ ∃ A ∈ Args, A.Opt = Id := by
  unfold hasArg
  rw [getLastArg_eq_getLast]
  constructor
  · intro h
    obtain ⟨A, hA⟩ := Option.isSome_iff_exists.mp h
    have hm := List.mem_of_getLast?_eq_some hA
    exact ⟨A, by simpa using hm⟩
  · rintro ⟨A, hA, hId⟩
    have : A ∈ Args.filter (fun A => decide (A.Opt = Id)) := by simp [hA, hId]
    cases hf : Args.filter (fun A => decide (A.Opt = Id)) with
    | nil => rw [hf] at this; simp at this
    | cons B l => simp [List.getLast?_cons]

theorem getValue_of_values {A : Arg} (h : A.Values ≠ []) : ∃ v, A.getValue = some v := by
  unfold Arg.getValue
  cases hv : A.Values with
  | nil => exact absurd hv h
  | cons v vs => exact ⟨v, rfl⟩

theorem assignLastValue_total (Args : List Arg) (Id : OptID) (Field : Option String)
    (hId : carriesValue Id = true)
    (hv : ∀ A ∈ Args, carriesValue A.Opt = true → A.Values ≠ []) :
    ∃ o, assignLastValue Args Id Field = some o := by
  unfold assignLastValue
  cases h : getLastArg Args Id with
  | none => exact ⟨Field, rfl⟩
  | some A =>
    obtain ⟨hm, hopt⟩ := getLastArg_some_mem h
    obtain ⟨v, hval⟩ := getValue_of_values (hv A hm (by rw [hopt]; exact hId))
    exact ⟨some v, by simp [hval]⟩

theorem pushInputs_total (L : List Arg) (Names : List String)
    (hv : ∀ A ∈ L, A.Values ≠ []) : ∃ N, pushInputs Names L = some N := by
  induction L generalizing Names with
  | nil => exact ⟨Names, rfl⟩
  | cons A rest ih =>
    obtain ⟨v, hval⟩ := getValue_of_values (hv A (List.mem_cons_self _ _))
    obtain ⟨N, hN⟩ := ih (Names ++ [v]) (fun B hB => hv B (List.mem_cons_of_mem _ hB))
    exact ⟨N, by simp [pushInputs, hval, hN]⟩

theorem ParseFrontendArgs_total (Opts : FrontendOptions) (Args : List Arg)
    (hv : ∀ A ∈ Args, carriesValue A.Opt = true → A.Values ≠ []) :
    ∃ O, ParseFrontendArgs Opts Args = some (false, O) := by
  obtain ⟨o, ho⟩ := assignLastValue_total Args OptID.OPT_o Opts.OutputFilename rfl hv
  obtain ⟨m, hm⟩ := assignLastValue_total Args OptID.OPT_module_name Opts.ModuleName rfl hv
  obtain ⟨d, hd⟩ := assignLastValue_total Args OptID.OPT_serialize_diagnostics
    Opts.SerializedDiagnosticsPath rfl hv
  obtain ⟨N, hN⟩ := pushInputs_total (filtered Args OptID.OPT_INPUT) Opts.InputFilenames
    (by
      intro A hA
      unfold filtered at hA
      rw [List.mem_filter] at hA
      have hopt : A.Opt = OptID.OPT_INPUT := by simpa using hA.2
      exact hv A hA.1 (by rw [hopt]; rfl))
  exact ⟨{ OutputFilename := o, ModuleName := m, SerializedDiagnosticsPath := d,
           InputFilenames := N }, by simp [ParseFrontendArgs, ho, hm, hd, hN]⟩

theorem ParseFrontendArgs_returns_false {Opts O : FrontendOptions} {Args : List Arg} {b : Bool}
    (h : ParseFrontendArgs Opts Args = some (b, O)) : b = false := by
  unfold ParseFrontendArgs at h
  simp only [Option.bind_eq_some] at h
  obtain ⟨_, _, _, _, _, _, _, _, h⟩ := h
  have := congrArg (fun r => r.map Prod.fst) h
  simpa using this.symm

theorem walkStep_total (inv : CompilerInvocation) (A : Arg)
    (hv : carriesValue A.Opt = true → A.Values ≠ []) : ∃ inv1, walkStep inv A = some inv1 := by
  unfold walkStep
  cases hopt : A.Opt <;> simp only [] <;>
    first
    | exact ⟨_, rfl⟩
    | (obtain ⟨v, hval⟩ := getValue_of_values (hv (by rw [hopt]; rfl))
       exact ⟨_, by rw [hval]; rfl⟩)

theorem walk_total (L : List Arg) (inv : CompilerInvocation)
    (hv : ∀ A ∈ L, carriesValue A.Opt = true → A.Values ≠ []) : ∃ inv1, walk inv L = some inv1 := by
  induction L generalizing inv with
  | nil => exact ⟨inv, rfl⟩
  | cons A rest ih =>
    obtain ⟨inv1, h1⟩ := walkStep_total inv A (hv A (List.mem_cons_self _ _))
    obtain ⟨inv2, h2⟩ := ih inv1 (fun B hB => hv B (List.mem_cons_of_mem _ hB))
    exact ⟨inv2, by simp [walk, h1, h2]⟩

/-! ## Failure, diagnostics and the empty argument list -/

/-- C1: under the contract of the matcher, `parseArgs` runs to a `return`, and
it returns failure (`true`) exactly when the matcher reports a non-zero
missing-value count or the matched sequence has an unknown-option entry; on
the empty argument list it returns success. -/
theorem parseArgs_fails_iff (Table : OptTable) (inv : CompilerInvocation)
    (Args : List String) (Diags : List Diagnostic)
    (hc : MatcherContract Args (Table.ParseArgs Args)) :
    ∃ b inv1 Diags1, parseArgs Table inv Args Diags = some (b, inv1, Diags1) ∧
      (b = true ↔ ((Table.ParseArgs Args).MissingCount ≠ 0 ∨
        ∃ A ∈ (Table.ParseArgs Args).Args, A.Opt = OptID.OPT_UNKNOWN)) ∧
      (Args = [] → b = false) := by
  obtain ⟨hlen, hidx, hval⟩ := hc
  unfold EntriesWithinArgs at hlen
  unfold MissingIndexValid at hidx
  unfold ValuesPresent at hval
  unfold parseArgs
  by_cases hE : Args = []
  · subst hE
    have h0 : (Table.ParseArgs []).MissingCount = 0 := by
      by_contra hne
      exact absurd (hidx hne) (by simp)
    have hnil : (Table.ParseArgs []).Args = [] := by
      apply List.eq_nil_of_length_eq_zero
      simpa using hlen
    refine ⟨false, inv, Diags, by simp, ?_, fun _ => rfl⟩
    simp [h0, hnil]
  · have hE2 : Args.isEmpty = false := by
      cases Args with
      | nil => exact absurd rfl hE
      | cons a l => rfl
    simp only [hE2, Bool.false_eq_true, if_false]
    by_cases hM : (Table.ParseArgs Args).MissingCount = 0
    · simp only [hM, ne_eq, not_true_eq_false, if_false]
      by_cases hU : hasArg (Table.ParseArgs Args).Args OptID.OPT_UNKNOWN = true
      · simp only [hU, if_true]
        refine ⟨true, inv, _, rfl, ?_, fun h => absurd h hE⟩
        simp only [true_iff]
        exact Or.inr ((hasArg_iff _ _).mp hU)
      · simp only [hU, Bool.false_eq_true, if_false]
        obtain ⟨O, hO⟩ := ParseFrontendArgs_total inv.FrontendOpts (Table.ParseArgs Args).Args hval
        obtain ⟨inv1, h1⟩ := walk_total (Table.ParseArgs Args).Args
          { inv with FrontendOpts := O } hval
        refine ⟨false, inv1, Diags, by simp [hO, h1], ?_, fun _ => rfl⟩
        constructor
        · intro hb
          exact absurd hb (by simp)
        · rintro (h | h)
          · exact h.elim
          · exact absurd ((hasArg_iff _ _).mpr h) hU
    · have hlt := hidx hM
      have hget : getArgString Args (Table.ParseArgs Args).MissingIndex
          = some (Args.get ⟨_, hlt⟩) := by
        unfold getArgString
        simp [List.getElem?_eq_getElem hlt]
      simp only [ne_eq, hM, not_false_eq_true, if_true, hget]
      exact ⟨true, inv, _, rfl, by simp, fun h => absurd h hE⟩

/-- C1, on the example catalog: an argument list with an unknown token. -/
theorem parseArgs_fails_iff_witness :
    MatcherContract ["-I", "a", "-bogus"] (exampleTable.ParseArgs ["-I", "a", "-bogus"]) ∧
    ∃ b inv1 Diags1,
      parseArgs exampleTable (CompilerInvocation.CompilerInvocation "host")
        ["-I", "a", "-bogus"] [] = some (b, inv1, Diags1) ∧
      (b = true ↔ ((exampleTable.ParseArgs ["-I", "a", "-bogus"]).MissingCount ≠ 0 ∨
        ∃ A ∈ (exampleTable.ParseArgs ["-I", "a", "-bogus"]).Args, A.Opt = OptID.OPT_UNKNOWN)) ∧
      (["-I", "a", "-bogus"] = [] → b = false) :=
  ⟨by decide,
   parseArgs_fails_iff exampleTable (CompilerInvocation.CompilerInvocation "host")
     ["-I", "a", "-bogus"] [] (by decide)⟩

/-- C2: whenever `parseArgs` returns failure, the object after the call is the
object before the call: no field has been assigned. -/
theorem parseArgs_failure_keeps_aggregate (Table : OptTable) (inv inv1 : CompilerInvocation)
    (Args : List String) (Diags Diags1 : List Diagnostic)
    (h : parseArgs Table inv Args Diags = some (true, inv1, Diags1)) : inv1 = inv := by
  unfold parseArgs at h
  split at h
  · simp at h
  · simp only [] at h
    split at h
    · split at h
      · simp at h
      · simp only [Option.some.injEq, Prod.mk.injEq, true_and] at h
        exact h.1.symm
    · split at h
      · simp only [Option.some.injEq, Prod.mk.injEq, true_and] at h
        exact h.1.symm
      · split at h
        · simp at h
        · rename_i hP
          exact absurd (ParseFrontendArgs_returns_false hP) (by simp)
        · split at h <;> simp at h

/-- C2, on the example catalog: a missing value after an assignable entry. -/
theorem parseArgs_failure_keeps_aggregate_witness :
    parseArgs exampleTable (CompilerInvocation.CompilerInvocation "host") ["-I", "a", "-o"] []
      = some (true, CompilerInvocation.CompilerInvocation "host",
          [Diagnostic.error_missing_arg_value "-o" 1]) ∧
    CompilerInvocation.CompilerInvocation "host" = CompilerInvocation.CompilerInvocation "host" :=
  ⟨by decide,
   parseArgs_failure_keeps_aggregate exampleTable (CompilerInvocation.CompilerInvocation "host")
     (CompilerInvocation.CompilerInvocation "host") ["-I", "a", "-o"] []
     [Diagnostic.error_missing_arg_value "-o" 1] (by decide)⟩


/-- C3: when the matcher reports a missing-value count `N ≥ 1` (at the index
of an argument), `parseArgs` emits one diagnostic and no other: the
missing-value diagnostic with the argument text at that index and the count
`N`; it returns failure and leaves the object as it was.  Nothing is assumed
about the matched sequence, which may hold unknown entries. -/
theorem parseArgs_missing_value_diagnostic (Table : OptTable) (inv : CompilerInvocation)
    (Args : List String) (Diags : List Diagnostic)
    (hN : 1 ≤ (Table.ParseArgs Args).MissingCount)
    (hidx : (Table.ParseArgs Args).MissingIndex < Args.length) :
    parseArgs Table inv Args Diags
      = some (true, inv,
          Diags ++ [Diagnostic.error_missing_arg_value
            (Args.get ⟨(Table.ParseArgs Args).MissingIndex, hidx⟩)
            (Table.ParseArgs Args).MissingCount]) := by
  have hE : Args.isEmpty = false := by
    cases Args with
    | nil => simp at hidx
    | cons a l => rfl
  have hM : (Table.ParseArgs Args).MissingCount ≠ 0 := by omega
  have hget : getArgString Args (Table.ParseArgs Args).MissingIndex
      = some (Args.get ⟨_, hidx⟩) := by
    unfold getArgString
    simp [List.getElem?_eq_getElem hidx]
  unfold parseArgs
  simp only [hE, Bool.false_eq_true, if_false, ne_eq, hM, not_false_eq_true, if_true, hget]

/-- C3, on the example catalog: an unknown token and a missing value
together give the one missing-value diagnostic. -/
theorem parseArgs_missing_value_diagnostic_witness :
    1 ≤ (exampleTable.ParseArgs ["-bogus", "-o"]).MissingCount ∧
    parseArgs exampleTable (CompilerInvocation.CompilerInvocation "host") ["-bogus", "-o"] []
      = some (true, CompilerInvocation.CompilerInvocation "host",
          [Diagnostic.error_missing_arg_value "-o" 1]) :=
  ⟨by decide,
   parseArgs_missing_value_diagnostic exampleTable (CompilerInvocation.CompilerInvocation "host")
     ["-bogus", "-o"] [] (by decide) (by decide)⟩

/-- C4: with no missing-value error and `k ≥ 1` unknown-option entries in the
matched sequence, `parseArgs` returns failure, leaves the object as it was,
and emits exactly `k` diagnostics: the unknown-option diagnostic of each
unknown entry, with the text of that entry, in the order of the sequence. -/
theorem parseArgs_unknown_diagnostics (Table : OptTable) (inv : CompilerInvocation)
    (Args : List String) (Diags : List Diagnostic) (k : Nat)
    (hlen : EntriesWithinArgs Args (Table.ParseArgs Args))
    (hM : (Table.ParseArgs Args).MissingCount = 0)
    (hk : ((Table.ParseArgs Args).Args.filter
      (fun A => decide (A.Opt = OptID.OPT_UNKNOWN))).length = k)
    (hk1 : 1 ≤ k) :
    ∃ Emitted : List Diagnostic,
      parseArgs Table inv Args Diags = some (true, inv, Diags ++ Emitted) ∧
      Emitted.length = k ∧
      Emitted = ((Table.ParseArgs Args).Args.filter
        (fun A => decide (A.Opt = OptID.OPT_UNKNOWN))).map
          (fun A => Diagnostic.error_unknown_arg A.AsString) := by
  unfold EntriesWithinArgs at hlen
  have hU : hasArg (Table.ParseArgs Args).Args OptID.OPT_UNKNOWN = true := by
    rw [hasArg_iff]
    cases hf : (Table.ParseArgs Args).Args.filter
        (fun A => decide (A.Opt = OptID.OPT_UNKNOWN)) with
    | nil => rw [hf] at hk; simp at hk; omega
    | cons B l =>
      have hB : B ∈ (Table.ParseArgs Args).Args.filter
          (fun A => decide (A.Opt = OptID.OPT_UNKNOWN)) := by rw [hf]; exact List.mem_cons_self _ _
      rw [List.mem_filter] at hB
      exact ⟨B, hB.1, by simpa using hB.2⟩
  have hE : Args.isEmpty = false := by
    cases Args with
    | nil =>
      have hnil : (Table.ParseArgs []).Args = [] := by
        apply List.eq_nil_of_length_eq_zero
        simpa using hlen
      rw [hnil] at hk
      simp at hk
      omega
    | cons a l => rfl
  refine ⟨_, ?_, ?_, rfl⟩
  · unfold parseArgs
    simp only [hE, Bool.false_eq_true, if_false, ne_eq, hM, not_true_eq_false, hU, if_true]
    rfl
  · rw [List.length_map, hk]

/-- C4, on the example catalog: three unknown tokens give three
diagnostics. -/
theorem parseArgs_unknown_diagnostics_witness :
    EntriesWithinArgs ["-a", "x.swift", "-b", "-I", "p", "-c"]
      (exampleTable.ParseArgs ["-a", "x.swift", "-b", "-I", "p", "-c"]) ∧
    ∃ Emitted : List Diagnostic,
      parseArgs exampleTable (CompilerInvocation.CompilerInvocation "host")
        ["-a", "x.swift", "-b", "-I", "p", "-c"] []
        = some (true, CompilerInvocation.CompilerInvocation "host", [] ++ Emitted) ∧
      Emitted.length = 3 ∧
      Emitted = ((exampleTable.ParseArgs ["-a", "x.swift", "-b", "-I", "p", "-c"]).Args.filter
        (fun A => decide (A.Opt = OptID.OPT_UNKNOWN))).map
          (fun A => Diagnostic.error_unknown_arg A.AsString) :=
  ⟨by decide,
   parseArgs_unknown_diagnostics exampleTable (CompilerInvocation.CompilerInvocation "host")
     ["-a", "x.swift", "-b", "-I", "p", "-c"] [] 3 (by decide) (by decide) (by decide)
     (by decide)⟩

/-- C5: on the empty argument list `parseArgs` returns success without
touching the object or the diagnostics, whatever the option table; for the
freshly constructed object that is the construction-time default: the host
triple, every optional field unset, every list empty, `Main`, both flags
false. -/
theorem parseArgs_empty_keeps_default (Table : OptTable) (DefaultTargetTriple : String)
    (Diags : List Diagnostic) :
    (∀ inv : CompilerInvocation, parseArgs Table inv [] Diags = some (false, inv, Diags)) ∧
    parseArgs Table (CompilerInvocation.CompilerInvocation DefaultTargetTriple) [] Diags
      = some (false,
          { TargetTriple := DefaultTargetTriple
            FrontendOpts :=
              { OutputFilename := none
                ModuleName := none
                SerializedDiagnosticsPath := none
                InputFilenames := [] }
            LangOpts := { DebugConstraintSolver := false }
            ImportSearchPaths := []
            FrameworkSearchPaths := []
            ExtraClangArgs := []
            SDKPath := none
            ClangModuleCachePath := none
            ModuleSourceListPath := none
            RuntimeIncludePath := none
            LinkLibraries := []
            InputKind := SourceFileKind.Main
            ParseStdlib := false },
          Diags) :=
  ⟨fun _ => rfl, rfl⟩


/-! ## One step of the walk, field by field -/

theorem walkStep_FrontendOpts {inv inv1 : CompilerInvocation} {A : Arg}
    (h : walkStep inv A = some inv1) : inv1.FrontendOpts = inv.FrontendOpts := by
  revert h
  unfold walkStep
  cases A.Opt <;> simp only [Option.map_eq_some', Option.some.injEq] <;>
    (rintro ⟨v, -, rfl⟩; rfl)

theorem walkStep_TargetTriple {inv inv1 : CompilerInvocation} {A : Arg}
    (h : walkStep inv A = some inv1) :
    if A.Opt = OptID.OPT_target then
      ∃ v, A.getValue = some v ∧ some inv1.TargetTriple = some v
    else some inv1.TargetTriple = some inv.TargetTriple := by
  revert h
  unfold walkStep
  cases A.Opt <;> simp only [Option.map_eq_some', Option.some.injEq] <;>
    first
    | (rintro ⟨v, hv, rfl⟩
       simp [hv, setTargetTriple, setSDKPath, setClangModuleCachePath,
         setModuleSourceListPath, addLinkLibrary])
    | (rintro rfl; simp [setInputKind, setParseStdlib])

theorem walkStep_SDKPath {inv inv1 : CompilerInvocation} {A : Arg}
    (h : walkStep inv A = some inv1) :
    if A.Opt = OptID.OPT_sdk then
      ∃ v, A.getValue = some v ∧ inv1.SDKPath = some v
    else inv1.SDKPath = inv.SDKPath := by
  revert h
  unfold walkStep
  cases A.Opt <;> simp only [Option.map_eq_some', Option.some.injEq] <;>
    first
    | (rintro ⟨v, hv, rfl⟩
       simp [hv, setTargetTriple, setSDKPath, setClangModuleCachePath,
         setModuleSourceListPath, addLinkLibrary])
    | (rintro rfl; simp [setInputKind, setParseStdlib])

theorem walkStep_ClangModuleCachePath {inv inv1 : CompilerInvocation} {A : Arg}
    (h : walkStep inv A = some inv1) :
    if A.Opt = OptID.OPT_module_cache_path then
      ∃ v, A.getValue = some v ∧ inv1.ClangModuleCachePath = some v
    else inv1.ClangModuleCachePath = inv.ClangModuleCachePath := by
  revert h
  unfold walkStep
  cases A.Opt <;> simp only [Option.map_eq_some', Option.some.injEq] <;>
    first
    | (rintro ⟨v, hv, rfl⟩
       simp [hv, setTargetTriple, setSDKPath, setClangModuleCachePath,
         setModuleSourceListPath, addLinkLibrary])
    | (rintro rfl; simp [setInputKind, setParseStdlib])

theorem walkStep_ModuleSourceListPath {inv inv1 : CompilerInvocation} {A : Arg}
    (h : walkStep inv A = some inv1) :
    if A.Opt = OptID.OPT_module_source_list then
      ∃ v, A.getValue = some v ∧ inv1.ModuleSourceListPath = some v
    else inv1.ModuleSourceListPath = inv.ModuleSourceListPath := by
  revert h
  unfold walkStep
  cases A.Opt <;> simp only [Option.map_eq_some', Option.some.injEq] <;>
    first
    | (rintro ⟨v, hv, rfl⟩
       simp [hv, setTargetTriple, setSDKPath, setClangModuleCachePath,
         setModuleSourceListPath, addLinkLibrary])
    | (rintro rfl; simp [setInputKind, setParseStdlib])

theorem walkStep_ImportSearchPaths {inv inv1 : CompilerInvocation} {A : Arg}
    (h : walkStep inv A = some inv1) :
    inv1.ImportSearchPaths.map some = inv.ImportSearchPaths.map some ++
      (if decide (A.Opt = OptID.OPT_I) = true then [A.getValue] else []) := by
  revert h
  unfold walkStep
  cases A.Opt <;> simp only [Option.map_eq_some', Option.some.injEq] <;>
    first
    | (rintro ⟨v, hv, rfl⟩
       simp [hv, setTargetTriple, setSDKPath, setClangModuleCachePath,
         setModuleSourceListPath, addLinkLibrary])
    | (rintro rfl; simp [setInputKind, setParseStdlib])

theorem walkStep_FrameworkSearchPaths {inv inv1 : CompilerInvocation} {A : Arg}
    (h : walkStep inv A = some inv1) :
    inv1.FrameworkSearchPaths.map some = inv.FrameworkSearchPaths.map some ++
      (if decide (A.Opt = OptID.OPT_F) = true then [A.getValue] else []) := by
  revert h
  unfold walkStep
  cases A.Opt <;> simp only [Option.map_eq_some', Option.some.injEq] <;>
    first
    | (rintro ⟨v, hv, rfl⟩
       simp [hv, setTargetTriple, setSDKPath, setClangModuleCachePath,
         setModuleSourceListPath, addLinkLibrary])
    | (rintro rfl; simp [setInputKind, setParseStdlib])

theorem walkStep_ExtraClangArgs {inv inv1 : CompilerInvocation} {A : Arg}
    (h : walkStep inv A = some inv1) :
    inv1.ExtraClangArgs.map some = inv.ExtraClangArgs.map some ++
      (if decide (A.Opt = OptID.OPT_Xcc) = true then [A.getValue] else []) := by
  revert h
  unfold walkStep
  cases A.Opt <;> simp only [Option.map_eq_some', Option.some.injEq] <;>
    first
    | (rintro ⟨v, hv, rfl⟩
       simp [hv, setTargetTriple, setSDKPath, setClangModuleCachePath,
         setModuleSourceListPath, addLinkLibrary])
    | (rintro rfl; simp [setInputKind, setParseStdlib])

theorem walkStep_LinkLibraries {inv inv1 : CompilerInvocation} {A : Arg}
    (h : walkStep inv A = some inv1) :
    inv1.LinkLibraries.map some = inv.LinkLibraries.map some ++
      (if (decide (A.Opt = OptID.OPT_l) || decide (A.Opt = OptID.OPT_framework)) = true then
        [linkRequest A] else []) := by
  revert h
  unfold walkStep linkRequest
  cases A.Opt <;> simp only [Option.map_eq_some', Option.some.injEq] <;>
    first
    | (rintro ⟨v, hv, rfl⟩
       simp [hv, setTargetTriple, setSDKPath, setClangModuleCachePath,
         setModuleSourceListPath, addLinkLibrary])
    | (rintro rfl; simp [setInputKind, setParseStdlib])

theorem walkStep_InputKind {inv inv1 : CompilerInvocation} {A : Arg}
    (h : walkStep inv A = some inv1) :
    inv1.InputKind = if A.Opt = OptID.OPT_parse_as_library then SourceFileKind.Library
      else inv.InputKind := by
  revert h
  unfold walkStep
  cases A.Opt <;> simp only [Option.map_eq_some', Option.some.injEq] <;>
    first
    | (rintro ⟨v, hv, rfl⟩
       simp [hv, setTargetTriple, setSDKPath, setClangModuleCachePath,
         setModuleSourceListPath, addLinkLibrary])
    | (rintro rfl; simp [setInputKind, setParseStdlib])

/-! ## The walk, by policy -/

theorem walk_cons_some {inv inv2 : CompilerInvocation} {A : Arg} {rest : List Arg}
    (h : walk inv (A :: rest) = some inv2) :
    ∃ inv1, walkStep inv A = some inv1 ∧ walk inv1 rest = some inv2 := by
  unfold walk at h
  cases h1 : walkStep inv A with
  | none => rw [h1] at h; simp at h
  | some inv1 => rw [h1] at h; exact ⟨inv1, rfl, h⟩

/-- A field that no step changes is the same after the walk. -/
theorem walk_unchanged {β : Type} (proj : CompilerInvocation → β)
    (hstep : ∀ inv A inv1, walkStep inv A = some inv1 → proj inv1 = proj inv)
    (L : List Arg) (inv inv2 : CompilerInvocation) (h : walk inv L = some inv2) :
    proj inv2 = proj inv := by
  induction L generalizing inv with
  | nil => simp only [walk, Option.some.injEq] at h; rw [h]
  | cons A rest ih =>
    obtain ⟨inv1, h1, h2⟩ := walk_cons_some h
    rw [ih inv1 h2, hstep inv A inv1 h1]

/-- Scalar overwrite: after the walk the field holds the value of the last
entry of its identity, and is as before when there is none. -/
theorem walk_lastWins (proj : CompilerInvocation → Option String) (Id : OptID)
    (hstep : ∀ inv A inv1, walkStep inv A = some inv1 →
      if A.Opt = Id then ∃ v, A.getValue = some v ∧ proj inv1 = some v
      else proj inv1 = proj inv)
    (L : List Arg) (inv inv2 : CompilerInvocation) (h : walk inv L = some inv2) :
    match lastOccurrence L Id with
    | none => proj inv2 = proj inv
    | some A => ∃ v, A.getValue = some v ∧ proj inv2 = some v := by
  unfold lastOccurrence occurrences
  rw [← List.getLast?_eq_getElem?]
  induction L generalizing inv with
  | nil => simp only [walk, Option.some.injEq] at h; rw [h]; rfl
  | cons A rest ih =>
    obtain ⟨inv1, h1, h2⟩ := walk_cons_some h
    have hs := hstep inv A inv1 h1
    have hr := ih inv1 h2
    by_cases hopt : A.Opt = Id
    · rw [if_pos hopt] at hs
      rw [List.filter_cons_of_pos (by simpa using hopt), List.getLast?_cons]
      revert hr
      cases (List.filter (fun A => decide (A.Opt = Id)) rest).getLast? with
      | none =>
        intro hr
        obtain ⟨v, hv, hp⟩ := hs
        exact ⟨v, hv, by rw [← hp]; exact hr⟩
      | some B => exact fun hr => hr
    · rw [if_neg hopt] at hs
      rw [List.filter_cons_of_neg (by simpa using hopt)]
      revert hr
      cases (List.filter (fun A => decide (A.Opt = Id)) rest).getLast? with
      | none => intro hr; exact hr.trans hs
      | some B => exact fun hr => hr

/-- List append: after the walk the list is the list before it followed by
the contributions of the selected entries, in sequence order. -/
theorem walk_accumulates {β : Type} (proj : CompilerInvocation → List β) (p : Arg → Bool)
    (g : Arg → Option β)
    (hstep : ∀ inv A inv1, walkStep inv A = some inv1 →
      (proj inv1).map some = (proj inv).map some ++ (if p A = true then [g A] else []))
    (L : List Arg) (inv inv2 : CompilerInvocation) (h : walk inv L = some inv2) :
    (proj inv2).map some = (proj inv).map some ++ (L.filter p).map g := by
  induction L generalizing inv with
  | nil => simp only [walk, Option.some.injEq] at h; rw [h]; simp
  | cons A rest ih =>
    obtain ⟨inv1, h1, h2⟩ := walk_cons_some h
    rw [ih inv1 h2, hstep inv A inv1 h1]
    by_cases hp : p A = true
    · rw [if_pos hp, List.filter_cons_of_pos hp]; simp
    · rw [if_neg hp, List.filter_cons_of_neg hp]; simp


/-! ## `ParseFrontendArgs`, field by field -/

theorem assignLastValue_some {Args : List Arg} {Id : OptID} {Field Field1 : Option String}
    (h : assignLastValue Args Id Field = some Field1) :
    match lastOccurrence Args Id with
    | none => Field1 = Field
    | some A => ∃ v, A.getValue = some v ∧ Field1 = some v := by
  unfold assignLastValue at h
  unfold lastOccurrence occurrences
  rw [← List.getLast?_eq_getElem?, ← getLastArg_eq_getLast]
  revert h
  cases getLastArg Args Id with
  | none => intro h; simp only [Option.some.injEq] at h; exact h.symm
  | some A =>
    intro h
    simp only [Option.map_eq_some'] at h
    obtain ⟨v, hv, hf⟩ := h
    exact ⟨v, hv, hf.symm⟩

theorem pushInputs_some (L : List Arg) (Names Names1 : List String)
    (h : pushInputs Names L = some Names1) :
    Names1.map some = Names.map some ++ L.map Arg.getValue := by
  induction L generalizing Names with
  | nil => simp only [pushInputs, Option.some.injEq] at h; rw [h]; simp
  | cons A rest ih =>
    unfold pushInputs at h
    cases hv : A.getValue with
    | none => rw [hv] at h; simp at h
    | some v =>
      rw [hv] at h
      rw [ih (Names ++ [v]) h]
      simp [hv]

theorem ParseFrontendArgs_some {Opts O : FrontendOptions} {Args : List Arg} {b : Bool}
    (h : ParseFrontendArgs Opts Args = some (b, O)) :
    assignLastValue Args OptID.OPT_o Opts.OutputFilename = some O.OutputFilename ∧
    assignLastValue Args OptID.OPT_module_name Opts.ModuleName = some O.ModuleName ∧
    assignLastValue Args OptID.OPT_serialize_diagnostics Opts.SerializedDiagnosticsPath
      = some O.SerializedDiagnosticsPath ∧
    pushInputs Opts.InputFilenames (filtered Args OptID.OPT_INPUT) = some O.InputFilenames := by
  unfold ParseFrontendArgs at h
  simp only [Option.bind_eq_some, Option.some.injEq, Prod.mk.injEq] at h
  obtain ⟨o, ho, m, hm, d, hd, N, hN, -, rfl⟩ := h
  exact ⟨ho, hm, hd, hN⟩

/-! ## A successful `parseArgs` -/

/-- A successful call on a matched sequence that is no longer than the
argument list is `ParseFrontendArgs` followed by the walk over that
sequence, and emits nothing. -/
theorem parseArgs_success {Table : OptTable} {inv inv2 : CompilerInvocation}
    {Args : List String} {Diags Diags2 : List Diagnostic}
    (hlen : EntriesWithinArgs Args (Table.ParseArgs Args))
    (h : parseArgs Table inv Args Diags = some (false, inv2, Diags2)) :
    ∃ O, ParseFrontendArgs inv.FrontendOpts (Table.ParseArgs Args).Args = some (false, O) ∧
      walk { inv with FrontendOpts := O } (Table.ParseArgs Args).Args = some inv2 ∧
      Diags2 = Diags := by
  unfold EntriesWithinArgs at hlen
  unfold parseArgs at h
  split at h
  · rename_i hE
    have hA : Args = [] := by simpa using hE
    subst hA
    have hnil : (Table.ParseArgs []).Args = [] := by
      apply List.eq_nil_of_length_eq_zero
      simpa using hlen
    simp only [Option.some.injEq, Prod.mk.injEq, true_and] at h
    obtain ⟨rfl, rfl⟩ := h
    rw [hnil]
    exact ⟨inv.FrontendOpts, rfl, rfl, rfl⟩
  · simp only [] at h
    split at h
    · split at h <;> simp at h
    · split at h
      · simp at h
      · split at h
        · simp at h
        · simp at h
        · rename_i O hP
          split at h
          · simp at h
          · rename_i inv1 hW
            simp only [Option.some.injEq, Prod.mk.injEq, true_and] at h
            obtain ⟨rfl, rfl⟩ := h
            exact ⟨O, hP, hW, rfl⟩


/-! ## Field policies of a successful resolution -/

/-- C6: after a successful `parseArgs`, each last-occurrence-wins field
(target triple, output filename, module name, serialized-diagnostics path,
SDK path, module-cache path, module-source-list path) whose flag occurs
`k ≥ 1` times in the matched sequence holds the value of the `k`-th
occurrence; only the entries of the flag itself enter the statement, so the
placing of the other entries is immaterial. -/
theorem parseArgs_last_occurrence_wins (Table : OptTable) (inv inv2 : CompilerInvocation)
    (Args : List String) (Diags Diags2 : List Diagnostic)
    (hlen : EntriesWithinArgs Args (Table.ParseArgs Args))
    (h : parseArgs Table inv Args Diags = some (false, inv2, Diags2)) :
    (∀ A, lastOccurrence (Table.ParseArgs Args).Args OptID.OPT_target = some A →
      A.getValue = some inv2.TargetTriple) ∧
    (∀ A, lastOccurrence (Table.ParseArgs Args).Args OptID.OPT_o = some A →
      ∃ v, A.getValue = some v ∧ inv2.FrontendOpts.OutputFilename = some v) ∧
    (∀ A, lastOccurrence (Table.ParseArgs Args).Args OptID.OPT_module_name = some A →
      ∃ v, A.getValue = some v ∧ inv2.FrontendOpts.ModuleName = some v) ∧
    (∀ A, lastOccurrence (Table.ParseArgs Args).Args OptID.OPT_serialize_diagnostics = some A →
      ∃ v, A.getValue = some v ∧ inv2.FrontendOpts.SerializedDiagnosticsPath = some v) ∧
    (∀ A, lastOccurrence (Table.ParseArgs Args).Args OptID.OPT_sdk = some A →
      ∃ v, A.getValue = some v ∧ inv2.SDKPath = some v) ∧
    (∀ A, lastOccurrence (Table.ParseArgs Args).Args OptID.OPT_module_cache_path = some A →
      ∃ v, A.getValue = some v ∧ inv2.ClangModuleCachePath = some v) ∧
    (∀ A, lastOccurrence (Table.ParseArgs Args).Args OptID.OPT_module_source_list = some A →
      ∃ v, A.getValue = some v ∧ inv2.ModuleSourceListPath = some v) := by
  obtain ⟨O, hP, hW, -⟩ := parseArgs_success hlen h
  obtain ⟨ho, hm, hd, -⟩ := ParseFrontendArgs_some hP
  have hF : inv2.FrontendOpts = O :=
    walk_unchanged (fun i => i.FrontendOpts) (fun _ _ _ hs => walkStep_FrontendOpts hs) _ _ _ hW
  have ht := walk_lastWins (fun i => some i.TargetTriple) OptID.OPT_target
    (fun _ _ _ hs => walkStep_TargetTriple hs) _ _ _ hW
  have hs := walk_lastWins (fun i => i.SDKPath) OptID.OPT_sdk
    (fun _ _ _ hs => walkStep_SDKPath hs) _ _ _ hW
  have hc := walk_lastWins (fun i => i.ClangModuleCachePath) OptID.OPT_module_cache_path
    (fun _ _ _ hs => walkStep_ClangModuleCachePath hs) _ _ _ hW
  have hl := walk_lastWins (fun i => i.ModuleSourceListPath) OptID.OPT_module_source_list
    (fun _ _ _ hs => walkStep_ModuleSourceListPath hs) _ _ _ hW
  have ho1 := assignLastValue_some ho
  have hm1 := assignLastValue_some hm
  have hd1 := assignLastValue_some hd
  refine ⟨?_, ?_, ?_, ?_, ?_, ?_, ?_⟩
  · intro A hA
    rw [hA] at ht
    obtain ⟨v, hv, hp⟩ := ht
    rw [hv]; exact hp.symm
  · intro A hA
    rw [hA] at ho1
    rw [hF]; exact ho1
  · intro A hA
    rw [hA] at hm1
    rw [hF]; exact hm1
  · intro A hA
    rw [hA] at hd1
    rw [hF]; exact hd1
  · intro A hA
    rw [hA] at hs
    exact hs
  · intro A hA
    rw [hA] at hc
    exact hc
  · intro A hA
    rw [hA] at hl
    exact hl

/-- C7: after a successful `parseArgs` on a freshly constructed object, each
accumulating list (import search paths, framework search paths, extra clang
arguments) is, element for element and in the same order, the list of values
of the entries of its flag: as many elements as occurrences, none merged,
none added. -/
theorem parseArgs_lists_accumulate (Table : OptTable) (DefaultTargetTriple : String)
    (inv2 : CompilerInvocation) (Args : List String) (Diags Diags2 : List Diagnostic)
    (hlen : EntriesWithinArgs Args (Table.ParseArgs Args))
    (h : parseArgs Table (CompilerInvocation.CompilerInvocation DefaultTargetTriple) Args Diags
      = some (false, inv2, Diags2)) :
    inv2.ImportSearchPaths.map some
      = (occurrences (Table.ParseArgs Args).Args OptID.OPT_I).map Arg.getValue ∧
    inv2.FrameworkSearchPaths.map some
      = (occurrences (Table.ParseArgs Args).Args OptID.OPT_F).map Arg.getValue ∧
    inv2.ExtraClangArgs.map some
      = (occurrences (Table.ParseArgs Args).Args OptID.OPT_Xcc).map Arg.getValue := by
  obtain ⟨O, -, hW, -⟩ := parseArgs_success hlen h
  have hI := walk_accumulates (fun i => i.ImportSearchPaths)
    (fun A => decide (A.Opt = OptID.OPT_I)) Arg.getValue
    (fun _ _ _ hs => walkStep_ImportSearchPaths hs) _ _ _ hW
  have hF := walk_accumulates (fun i => i.FrameworkSearchPaths)
    (fun A => decide (A.Opt = OptID.OPT_F)) Arg.getValue
    (fun _ _ _ hs => walkStep_FrameworkSearchPaths hs) _ _ _ hW
  have hX := walk_accumulates (fun i => i.ExtraClangArgs)
    (fun A => decide (A.Opt = OptID.OPT_Xcc)) Arg.getValue
    (fun _ _ _ hs => walkStep_ExtraClangArgs hs) _ _ _ hW
  exact ⟨by simpa [occurrences] using hI, by simpa [occurrences] using hF,
    by simpa [occurrences] using hX⟩

/-- C8: after a successful `parseArgs` on a freshly constructed object,
`InputFilenames` is, element for element and in the same order, the list of
values of the positional entries of the matched sequence, duplicates
included, whatever option entries stand between them. -/
theorem parseArgs_inputs_in_order (Table : OptTable) (DefaultTargetTriple : String)
    (inv2 : CompilerInvocation) (Args : List String) (Diags Diags2 : List Diagnostic)
    (hlen : EntriesWithinArgs Args (Table.ParseArgs Args))
    (h : parseArgs Table (CompilerInvocation.CompilerInvocation DefaultTargetTriple) Args Diags
      = some (false, inv2, Diags2)) :
    inv2.FrontendOpts.InputFilenames.map some
      = (occurrences (Table.ParseArgs Args).Args OptID.OPT_INPUT).map Arg.getValue := by
  obtain ⟨O, hP, hW, -⟩ := parseArgs_success hlen h
  obtain ⟨-, -, -, hN⟩ := ParseFrontendArgs_some hP
  have hF : inv2.FrontendOpts = O :=
    walk_unchanged (fun i => i.FrontendOpts) (fun _ _ _ hs => walkStep_FrontendOpts hs) _ _ _ hW
  have := pushInputs_some _ _ _ hN
  rw [hF, this]
  simp [occurrences, filtered, CompilerInvocation.CompilerInvocation, memberDefaults]

/-- C9: after a successful `parseArgs` on a freshly constructed object,
`LinkLibraries` is, element for element and in the order of the matched
sequence, the list of link requests of the `-l` and `-framework` entries: the
value with kind `Library` for the former, with kind `Framework` for the
latter, both families in the one list. -/
theorem parseArgs_link_libraries (Table : OptTable) (DefaultTargetTriple : String)
    (inv2 : CompilerInvocation) (Args : List String) (Diags Diags2 : List Diagnostic)
    (hlen : EntriesWithinArgs Args (Table.ParseArgs Args))
    (h : parseArgs Table (CompilerInvocation.CompilerInvocation DefaultTargetTriple) Args Diags
      = some (false, inv2, Diags2)) :
    inv2.LinkLibraries.map some
      = ((Table.ParseArgs Args).Args.filter
          (fun A => decide (A.Opt = OptID.OPT_l) || decide (A.Opt = OptID.OPT_framework))).map
          linkRequest := by
  obtain ⟨O, -, hW, -⟩ := parseArgs_success hlen h
  have hL := walk_accumulates (fun i => i.LinkLibraries)
    (fun A => decide (A.Opt = OptID.OPT_l) || decide (A.Opt = OptID.OPT_framework)) linkRequest
    (fun _ _ _ hs => walkStep_LinkLibraries hs) _ _ _ hW
  simpa using hL


example : parseArgs exampleTable (CompilerInvocation.CompilerInvocation "host") exampleArgs []
      = some (false, exampleResolved, []) := by decide

/-- C6, on the example catalog: `-target` and `-o` twice each, other entries
in between. -/
theorem parseArgs_last_occurrence_wins_witness :
    EntriesWithinArgs exampleArgs (exampleTable.ParseArgs exampleArgs) ∧
    parseArgs exampleTable (CompilerInvocation.CompilerInvocation "host") exampleArgs []
      = some (false, exampleResolved, []) ∧
    lastOccurrence (exampleTable.ParseArgs exampleArgs).Args OptID.OPT_target
      = some { Opt := OptID.OPT_target, Values := ["t2"], AsString := "-target t2" } ∧
    exampleResolved.TargetTriple = "t2" ∧
    ((∀ A, lastOccurrence (exampleTable.ParseArgs exampleArgs).Args OptID.OPT_target = some A →
      A.getValue = some exampleResolved.TargetTriple) ∧
    (∀ A, lastOccurrence (exampleTable.ParseArgs exampleArgs).Args OptID.OPT_o = some A →
      ∃ v, A.getValue = some v ∧ exampleResolved.FrontendOpts.OutputFilename = some v) ∧
    (∀ A, lastOccurrence (exampleTable.ParseArgs exampleArgs).Args OptID.OPT_module_name
        = some A →
      ∃ v, A.getValue = some v ∧ exampleResolved.FrontendOpts.ModuleName = some v) ∧
    (∀ A, lastOccurrence (exampleTable.ParseArgs exampleArgs).Args
        OptID.OPT_serialize_diagnostics = some A →
      ∃ v, A.getValue = some v ∧
        exampleResolved.FrontendOpts.SerializedDiagnosticsPath = some v) ∧
    (∀ A, lastOccurrence (exampleTable.ParseArgs exampleArgs).Args OptID.OPT_sdk = some A →
      ∃ v, A.getValue = some v ∧ exampleResolved.SDKPath = some v) ∧
    (∀ A, lastOccurrence (exampleTable.ParseArgs exampleArgs).Args OptID.OPT_module_cache_path
        = some A →
      ∃ v, A.getValue = some v ∧ exampleResolved.ClangModuleCachePath = some v) ∧
    (∀ A, lastOccurrence (exampleTable.ParseArgs exampleArgs).Args OptID.OPT_module_source_list
        = some A →
      ∃ v, A.getValue = some v ∧ exampleResolved.ModuleSourceListPath = some v)) :=
  ⟨by decide, by decide, by decide, rfl,
   parseArgs_last_occurrence_wins exampleTable (CompilerInvocation.CompilerInvocation "host")
     exampleResolved exampleArgs [] [] (by decide) (by decide)⟩

/-- C7, on the example catalog: `-I p` twice gives the list `p, p`. -/
theorem parseArgs_lists_accumulate_witness :
    EntriesWithinArgs exampleArgs (exampleTable.ParseArgs exampleArgs) ∧
    parseArgs exampleTable (CompilerInvocation.CompilerInvocation "host") exampleArgs []
      = some (false, exampleResolved, []) ∧
    exampleResolved.ImportSearchPaths = ["p", "p"] ∧
    (exampleResolved.ImportSearchPaths.map some
      = (occurrences (exampleTable.ParseArgs exampleArgs).Args OptID.OPT_I).map Arg.getValue ∧
    exampleResolved.FrameworkSearchPaths.map some
      = (occurrences (exampleTable.ParseArgs exampleArgs).Args OptID.OPT_F).map Arg.getValue ∧
    exampleResolved.ExtraClangArgs.map some
      = (occurrences (exampleTable.ParseArgs exampleArgs).Args OptID.OPT_Xcc).map
          Arg.getValue) :=
  ⟨by decide, by decide, rfl,
   parseArgs_lists_accumulate exampleTable "host" exampleResolved exampleArgs [] []
     (by decide) (by decide)⟩

/-- C8, on the example catalog: three positional arguments, one of them
twice, with options in between. -/
theorem parseArgs_inputs_in_order_witness :
    EntriesWithinArgs exampleArgs (exampleTable.ParseArgs exampleArgs) ∧
    parseArgs exampleTable (CompilerInvocation.CompilerInvocation "host") exampleArgs []
      = some (false, exampleResolved, []) ∧
    exampleResolved.FrontendOpts.InputFilenames = ["a.swift", "b.swift", "a.swift"] ∧
    exampleResolved.FrontendOpts.InputFilenames.map some
      = (occurrences (exampleTable.ParseArgs exampleArgs).Args OptID.OPT_INPUT).map
          Arg.getValue :=
  ⟨by decide, by decide, rfl,
   parseArgs_inputs_in_order exampleTable "host" exampleResolved exampleArgs [] []
     (by decide) (by decide)⟩

/-- C9, on the example catalog: `-l z`, `-framework Foo`, `-l m` in that
order. -/
theorem parseArgs_link_libraries_witness :
    EntriesWithinArgs exampleArgs (exampleTable.ParseArgs exampleArgs) ∧
    parseArgs exampleTable (CompilerInvocation.CompilerInvocation "host") exampleArgs []
      = some (false, exampleResolved, []) ∧
    exampleResolved.LinkLibraries.map some
      = ((exampleTable.ParseArgs exampleArgs).Args.filter
          (fun A => decide (A.Opt = OptID.OPT_l) || decide (A.Opt = OptID.OPT_framework))).map
          linkRequest :=
  ⟨by decide, by decide,
   parseArgs_link_libraries exampleTable "host" exampleResolved exampleArgs [] []
     (by decide) (by decide)⟩


/-! ## Entries that a field does not read -/

theorem filter_keeps_occurrences (p : Arg → Bool) (Id : OptID)
    (hp : ∀ A : Arg, A.Opt = Id → p A = true) (L : List Arg) :
    (L.filter p).filter (fun A => decide (A.Opt = Id))
      = L.filter (fun A => decide (A.Opt = Id)) := by
  rw [List.filter_filter]
  apply List.filter_congr
  intro A _
  by_cases h : A.Opt = Id
  · simp [h, hp A h]
  · simp [h]

theorem getLastArg_filter (p : Arg → Bool) (Id : OptID)
    (hp : ∀ A : Arg, A.Opt = Id → p A = true) (L : List Arg) :
    getLastArg (L.filter p) Id = getLastArg L Id := by
  rw [getLastArg_eq_getLast, getLastArg_eq_getLast, filter_keeps_occurrences p Id hp]

/-- Removing entries other than the three scalar flags and the positional
entries does not change what `ParseFrontendArgs` does. -/
theorem ParseFrontendArgs_filter (p : Arg → Bool)
    (ho : ∀ A : Arg, A.Opt = OptID.OPT_o → p A = true)
    (hm : ∀ A : Arg, A.Opt = OptID.OPT_module_name → p A = true)
    (hd : ∀ A : Arg, A.Opt = OptID.OPT_serialize_diagnostics → p A = true)
    (hi : ∀ A : Arg, A.Opt = OptID.OPT_INPUT → p A = true)
    (Opts : FrontendOptions) (L : List Arg) :
    ParseFrontendArgs Opts (L.filter p) = ParseFrontendArgs Opts L := by
  unfold ParseFrontendArgs assignLastValue filtered
  rw [getLastArg_filter p _ ho, getLastArg_filter p _ hm, getLastArg_filter p _ hd,
    filter_keeps_occurrences p _ hi]

theorem walkStep_setInputKind (inv : CompilerInvocation) (A : Arg) (K : SourceFileKind) :
    walkStep (setInputKind inv K) A
      = (walkStep inv A).map
          (fun r => if A.Opt = OptID.OPT_parse_as_library then r else setInputKind r K) := by
  unfold walkStep
  cases A.Opt <;> cases A.getValue <;> rfl

theorem walk_setLibrary (L : List Arg) (inv : CompilerInvocation) :
    walk (setInputKind inv SourceFileKind.Library) L
      = (walk inv L).map (fun r => setInputKind r SourceFileKind.Library) := by
  induction L generalizing inv with
  | nil => rfl
  | cons A rest ih =>
    unfold walk
    rw [walkStep_setInputKind]
    cases h1 : walkStep inv A with
    | none => rfl
    | some inv1 =>
      simp only [Option.map_some']
      by_cases hopt : A.Opt = OptID.OPT_parse_as_library
      · rw [if_pos hopt]
        have hL : inv1 = setInputKind inv1 SourceFileKind.Library := by
          revert h1
          unfold walkStep
          rw [hopt]
          simp only [Option.some.injEq]
          rintro rfl
          rfl
        conv_lhs => rw [hL]
        exact ih inv1
      · rw [if_neg hopt, ih inv1]

/-- The walk sees the library-mode entries only through whether there is
one: it is the walk over the other entries, followed by `setInputKind` when
the flag occurs. -/
theorem walk_without_library_mode (L : List Arg) (inv : CompilerInvocation) :
    walk inv L
      = (walk inv (L.filter (fun A => !decide (A.Opt = OptID.OPT_parse_as_library)))).map
          (fun r => if L.any (fun A => decide (A.Opt = OptID.OPT_parse_as_library)) = true
            then setInputKind r SourceFileKind.Library else r) := by
  induction L generalizing inv with
  | nil => rfl
  | cons A rest ih =>
    by_cases hopt : A.Opt = OptID.OPT_parse_as_library
    · have hs : walkStep inv A = some (setInputKind inv SourceFileKind.Library) := by
        unfold walkStep
        rw [hopt]
      rw [List.filter_cons_of_neg (by simp [hopt])]
      have hany : (A :: rest).any (fun A => decide (A.Opt = OptID.OPT_parse_as_library))
          = true := by simp [hopt]
      simp only [hany, if_true]
      conv_lhs => unfold walk
      simp only [hs]
      rw [walk_setLibrary, ih inv]
      cases walk inv (rest.filter (fun A => !decide (A.Opt = OptID.OPT_parse_as_library))) with
      | none => rfl
      | some r =>
        simp only [Option.map_some', Option.some.injEq]
        split <;> rfl
    · rw [List.filter_cons_of_pos (by simp [hopt])]
      have hany : (A :: rest).any (fun A => decide (A.Opt = OptID.OPT_parse_as_library))
          = rest.any (fun A => decide (A.Opt = OptID.OPT_parse_as_library)) := by
        simp [hopt]
      rw [hany]
      conv_lhs => unfold walk
      conv_rhs => unfold walk
      cases walkStep inv A with
      | none => rfl
      | some inv1 => exact ih inv1

theorem walk_InputKind (L : List Arg) (inv inv2 : CompilerInvocation)
    (h : walk inv L = some inv2) :
    inv2.InputKind
      = if L.any (fun A => decide (A.Opt = OptID.OPT_parse_as_library)) = true then
          SourceFileKind.Library
        else inv.InputKind := by
  induction L generalizing inv with
  | nil => simp only [walk, Option.some.injEq] at h; rw [h]; rfl
  | cons A rest ih =>
    obtain ⟨inv1, h1, h2⟩ := walk_cons_some h
    rw [ih inv1 h2, walkStep_InputKind h1]
    by_cases hopt : A.Opt = OptID.OPT_parse_as_library
    · simp [hopt]
    · simp [hopt]


/-- C10: after a successful `parseArgs` on a freshly constructed object,
`InputKind` is `Library` when the matched sequence has a library-mode entry
and `Main` when it has none; and two successful resolutions whose matched
sequences each have at least one library-mode entry and agree on all other
entries end in the same object, so giving the flag twice, or any number of
times, is giving it once. -/
theorem parseArgs_library_mode (Table : OptTable) (DefaultTargetTriple : String)
    (Args1 Args2 : List String) (inv1 inv2 : CompilerInvocation)
    (Diags Diags1 Diags2 : List Diagnostic)
    (hlen1 : EntriesWithinArgs Args1 (Table.ParseArgs Args1))
    (hlen2 : EntriesWithinArgs Args2 (Table.ParseArgs Args2))
    (h1 : parseArgs Table (CompilerInvocation.CompilerInvocation DefaultTargetTriple) Args1 Diags
      = some (false, inv1, Diags1))
    (h2 : parseArgs Table (CompilerInvocation.CompilerInvocation DefaultTargetTriple) Args2 Diags
      = some (false, inv2, Diags2)) :
    ((∃ A ∈ (Table.ParseArgs Args1).Args, A.Opt = OptID.OPT_parse_as_library) →
      inv1.InputKind = SourceFileKind.Library) ∧
    ((∀ A ∈ (Table.ParseArgs Args1).Args, A.Opt ≠ OptID.OPT_parse_as_library) →
      inv1.InputKind = SourceFileKind.Main) ∧
    ((∃ A ∈ (Table.ParseArgs Args1).Args, A.Opt = OptID.OPT_parse_as_library) →
      (∃ A ∈ (Table.ParseArgs Args2).Args, A.Opt = OptID.OPT_parse_as_library) →
      (Table.ParseArgs Args1).Args.filter
          (fun A => !decide (A.Opt = OptID.OPT_parse_as_library))
        = (Table.ParseArgs Args2).Args.filter
          (fun A => !decide (A.Opt = OptID.OPT_parse_as_library)) →
      inv1 = inv2) := by
  obtain ⟨O1, hP1, hW1, -⟩ := parseArgs_success hlen1 h1
  obtain ⟨O2, hP2, hW2, -⟩ := parseArgs_success hlen2 h2
  have hK := walk_InputKind _ _ _ hW1
  refine ⟨?_, ?_, ?_⟩
  · rintro ⟨A, hA, hopt⟩
    have hany : (Table.ParseArgs Args1).Args.any
        (fun A => decide (A.Opt = OptID.OPT_parse_as_library)) = true := by
      rw [List.any_eq_true]
      exact ⟨A, hA, by simpa using hopt⟩
    rw [hK, if_pos hany]
  · intro hnone
    have hany : ¬ (Table.ParseArgs Args1).Args.any
        (fun A => decide (A.Opt = OptID.OPT_parse_as_library)) = true := by
      rw [List.any_eq_true]
      rintro ⟨A, hA, hopt⟩
      exact hnone A hA (by simpa using hopt)
    rw [hK, if_neg hany]
    rfl
  · rintro ⟨A, hA, hoptA⟩ ⟨B, hB, hoptB⟩ hsame
    have hany1 : (Table.ParseArgs Args1).Args.any
        (fun A => decide (A.Opt = OptID.OPT_parse_as_library)) = true := by
      rw [List.any_eq_true]
      exact ⟨A, hA, by simpa using hoptA⟩
    have hany2 : (Table.ParseArgs Args2).Args.any
        (fun A => decide (A.Opt = OptID.OPT_parse_as_library)) = true := by
      rw [List.any_eq_true]
      exact ⟨B, hB, by simpa using hoptB⟩
    have hkeep : ∀ Id : OptID, Id ≠ OptID.OPT_parse_as_library → ∀ A : Arg, A.Opt = Id →
        (!decide (A.Opt = OptID.OPT_parse_as_library)) = true := by
      intro Id hId A hA
      rw [hA]
      simpa using hId
    have hPF : ∀ L : List Arg,
        ParseFrontendArgs (CompilerInvocation.CompilerInvocation DefaultTargetTriple).FrontendOpts
            (L.filter (fun A => !decide (A.Opt = OptID.OPT_parse_as_library)))
          = ParseFrontendArgs
              (CompilerInvocation.CompilerInvocation DefaultTargetTriple).FrontendOpts L :=
      fun L => ParseFrontendArgs_filter _ (hkeep _ (by decide)) (hkeep _ (by decide))
        (hkeep _ (by decide)) (hkeep _ (by decide)) _ L
    have hO : O1 = O2 := by
      have e1 := hPF (Table.ParseArgs Args1).Args
      rw [hsame, hPF, hP1, hP2] at e1
      simp only [Option.some.injEq, Prod.mk.injEq, true_and] at e1
      exact e1.symm
    subst hO
    rw [walk_without_library_mode, hany1, hsame] at hW1
    rw [walk_without_library_mode, hany2] at hW2
    rw [hW1] at hW2
    exact Option.some.inj hW2

/-- C10, on the example catalog: the flag twice and the flag once, all other
arguments alike. -/
theorem parseArgs_library_mode_witness :
    EntriesWithinArgs exampleArgs (exampleTable.ParseArgs exampleArgs) ∧
    EntriesWithinArgs exampleArgsOnce (exampleTable.ParseArgs exampleArgsOnce) ∧
    parseArgs exampleTable (CompilerInvocation.CompilerInvocation "host") exampleArgs []
      = some (false, exampleResolved, []) ∧
    parseArgs exampleTable (CompilerInvocation.CompilerInvocation "host") exampleArgsOnce []
      = some (false, exampleResolved, []) ∧
    ((exampleTable.ParseArgs exampleArgs).Args.filter
        (fun A => decide (A.Opt = OptID.OPT_parse_as_library))).length = 2 ∧
    ((exampleTable.ParseArgs exampleArgsOnce).Args.filter
        (fun A => decide (A.Opt = OptID.OPT_parse_as_library))).length = 1 ∧
    (exampleTable.ParseArgs exampleArgs).Args.filter
        (fun A => !decide (A.Opt = OptID.OPT_parse_as_library))
      = (exampleTable.ParseArgs exampleArgsOnce).Args.filter
        (fun A => !decide (A.Opt = OptID.OPT_parse_as_library)) ∧
    (((∃ A ∈ (exampleTable.ParseArgs exampleArgs).Args, A.Opt = OptID.OPT_parse_as_library) →
      exampleResolved.InputKind = SourceFileKind.Library) ∧
    ((∀ A ∈ (exampleTable.ParseArgs exampleArgs).Args, A.Opt ≠ OptID.OPT_parse_as_library) →
      exampleResolved.InputKind = SourceFileKind.Main) ∧
    ((∃ A ∈ (exampleTable.ParseArgs exampleArgs).Args, A.Opt = OptID.OPT_parse_as_library) →
      (∃ A ∈ (exampleTable.ParseArgs exampleArgsOnce).Args,
        A.Opt = OptID.OPT_parse_as_library) →
      (exampleTable.ParseArgs exampleArgs).Args.filter
          (fun A => !decide (A.Opt = OptID.OPT_parse_as_library))
        = (exampleTable.ParseArgs exampleArgsOnce).Args.filter
          (fun A => !decide (A.Opt = OptID.OPT_parse_as_library)) →
      exampleResolved = exampleResolved)) :=
  ⟨by decide, by decide, by decide, by decide, by decide, by decide, by decide,
   parseArgs_library_mode exampleTable "host" exampleArgs exampleArgsOnce exampleResolved
     exampleResolved [] [] [] (by decide) (by decide) (by decide) (by decide)⟩


/-! ## Monotonic flags and untouched fields -/

theorem walkStep_ParseStdlib {inv inv1 : CompilerInvocation} {A : Arg}
    (h : walkStep inv A = some inv1) :
    inv1.ParseStdlib = (inv.ParseStdlib || decide (A.Opt = OptID.OPT_parse_stdlib)) := by
  revert h
  unfold walkStep
  cases A.Opt <;> simp only [Option.map_eq_some', Option.some.injEq] <;>
    first
    | (rintro ⟨v, hv, rfl⟩
       simp [hv, setTargetTriple, setSDKPath, setClangModuleCachePath,
         setModuleSourceListPath, addLinkLibrary])
    | (rintro rfl; simp [setInputKind, setParseStdlib])

theorem walkStep_DebugConstraintSolver {inv inv1 : CompilerInvocation} {A : Arg}
    (h : walkStep inv A = some inv1) :
    inv1.LangOpts.DebugConstraintSolver
      = (inv.LangOpts.DebugConstraintSolver
          || decide (A.Opt = OptID.OPT_debug_constraints)) := by
  revert h
  unfold walkStep
  cases A.Opt <;> simp only [Option.map_eq_some', Option.some.injEq] <;>
    first
    | (rintro ⟨v, hv, rfl⟩
       simp [hv, setTargetTriple, setSDKPath, setClangModuleCachePath,
         setModuleSourceListPath, addLinkLibrary])
    | (rintro rfl; simp [setInputKind, setParseStdlib])

theorem walkStep_RuntimeIncludePath {inv inv1 : CompilerInvocation} {A : Arg}
    (h : walkStep inv A = some inv1) : inv1.RuntimeIncludePath = inv.RuntimeIncludePath := by
  revert h
  unfold walkStep
  cases A.Opt <;> simp only [Option.map_eq_some', Option.some.injEq] <;>
    (rintro ⟨v, -, rfl⟩; rfl)

/-- Monotonic flag: after the walk the flag is set when it was set before or
an entry of its identity occurs. -/
theorem walk_setsFlag (proj : CompilerInvocation → Bool) (Id : OptID)
    (hstep : ∀ inv A inv1, walkStep inv A = some inv1 →
      proj inv1 = (proj inv || decide (A.Opt = Id)))
    (L : List Arg) (inv inv2 : CompilerInvocation) (h : walk inv L = some inv2) :
    proj inv2 = (proj inv || L.any (fun A => decide (A.Opt = Id))) := by
  induction L generalizing inv with
  | nil => simp only [walk, Option.some.injEq] at h; rw [h]; simp
  | cons A rest ih =>
    obtain ⟨inv1, h1, h2⟩ := walk_cons_some h
    rw [ih inv1 h2, hstep inv A inv1 h1, List.any_cons, Bool.or_assoc]

theorem any_of_mem {L : List Arg} {Id : OptID} (h : ∃ A ∈ L, A.Opt = Id) :
    L.any (fun A => decide (A.Opt = Id)) = true := by
  obtain ⟨A, hA, hopt⟩ := h
  rw [List.any_eq_true]
  exact ⟨A, hA, by simpa using hopt⟩

theorem any_of_not_mem {L : List Arg} {Id : OptID} (h : ∀ A ∈ L, A.Opt ≠ Id) :
    L.any (fun A => decide (A.Opt = Id)) = false := by
  rw [Bool.eq_false_iff, Ne, List.any_eq_true]
  rintro ⟨A, hA, hopt⟩
  exact h A hA (by simpa using hopt)

/-- C11: after a successful `parseArgs`, `ParseStdlib` is true when the
matched sequence has a stdlib-parsing entry and `DebugConstraintSolver` is
true when it has a debug-constraints entry, at whatever position the entry
stands and whatever the object was before. -/
theorem parseArgs_monotonic_flags (Table : OptTable) (inv inv2 : CompilerInvocation)
    (Args : List String) (Diags Diags2 : List Diagnostic)
    (hlen : EntriesWithinArgs Args (Table.ParseArgs Args))
    (h : parseArgs Table inv Args Diags = some (false, inv2, Diags2)) :
    ((∃ A ∈ (Table.ParseArgs Args).Args, A.Opt = OptID.OPT_parse_stdlib) →
      inv2.ParseStdlib = true) ∧
    ((∃ A ∈ (Table.ParseArgs Args).Args, A.Opt = OptID.OPT_debug_constraints) →
      inv2.LangOpts.DebugConstraintSolver = true) := by
  obtain ⟨O, -, hW, -⟩ := parseArgs_success hlen h
  have hS : inv2.ParseStdlib = (inv.ParseStdlib
      || (Table.ParseArgs Args).Args.any (fun A => decide (A.Opt = OptID.OPT_parse_stdlib))) :=
    walk_setsFlag (fun i => i.ParseStdlib) OptID.OPT_parse_stdlib
      (fun _ _ _ hs => walkStep_ParseStdlib hs) _ { inv with FrontendOpts := O } _ hW
  have hD : inv2.LangOpts.DebugConstraintSolver = (inv.LangOpts.DebugConstraintSolver
      || (Table.ParseArgs Args).Args.any
          (fun A => decide (A.Opt = OptID.OPT_debug_constraints))) :=
    walk_setsFlag (fun i => i.LangOpts.DebugConstraintSolver) OptID.OPT_debug_constraints
      (fun _ _ _ hs => walkStep_DebugConstraintSolver hs) _ { inv with FrontendOpts := O } _ hW
  constructor
  · intro hex
    rw [hS, any_of_mem hex, Bool.or_true]
  · intro hex
    rw [hD, any_of_mem hex, Bool.or_true]

/-- C11, on the example catalog: each flag once, other entries before and
after. -/
theorem parseArgs_monotonic_flags_witness :
    EntriesWithinArgs exampleArgsFlags (exampleTable.ParseArgs exampleArgsFlags) ∧
    parseArgs exampleTable (CompilerInvocation.CompilerInvocation "host") exampleArgsFlags []
      = some (false, exampleResolvedFlags, []) ∧
    (∃ A ∈ (exampleTable.ParseArgs exampleArgsFlags).Args, A.Opt = OptID.OPT_parse_stdlib) ∧
    (((∃ A ∈ (exampleTable.ParseArgs exampleArgsFlags).Args, A.Opt = OptID.OPT_parse_stdlib) →
      exampleResolvedFlags.ParseStdlib = true) ∧
    ((∃ A ∈ (exampleTable.ParseArgs exampleArgsFlags).Args,
        A.Opt = OptID.OPT_debug_constraints) →
      exampleResolvedFlags.LangOpts.DebugConstraintSolver = true)) :=
  ⟨by decide, by decide, by decide,
   parseArgs_monotonic_flags exampleTable (CompilerInvocation.CompilerInvocation "host")
     exampleResolvedFlags exampleArgsFlags [] [] (by decide) (by decide)⟩


theorem map_some_cancel {β : Type} {l1 l2 : List β}
    (h : l1.map some = l2.map some) : l1 = l2 :=
  (List.map_injective_iff.mpr (Option.some_injective β)) h

theorem lastOccurrence_of_no_occurrence {L : List Arg} {Id : OptID}
    (h : occurrences L Id = []) : lastOccurrence L Id = none := by
  unfold lastOccurrence
  rw [h]
  rfl

theorem any_of_no_occurrence {L : List Arg} {Id : OptID}
    (h : occurrences L Id = []) : L.any (fun A => decide (A.Opt = Id)) = false := by
  unfold occurrences at h
  rw [List.filter_eq_nil_iff] at h
  rw [List.any_eq_false]
  exact h

/-- The walk, field by field, for a field whose flag does not occur. -/
theorem walk_accumulates_nothing {β : Type} (proj : CompilerInvocation → List β)
    (p : Arg → Bool) (g : Arg → Option β)
    (hstep : ∀ inv A inv1, walkStep inv A = some inv1 →
      (proj inv1).map some = (proj inv).map some ++ (if p A = true then [g A] else []))
    (L : List Arg) (inv inv2 : CompilerInvocation) (h : walk inv L = some inv2)
    (hnone : L.filter p = []) : proj inv2 = proj inv := by
  have := walk_accumulates proj p g hstep L inv inv2 h
  rw [hnone, List.map_nil, List.append_nil] at this
  exact map_some_cancel this

/-- C12: after a successful `parseArgs`, whatever the object was before,
every field whose flag has no entry in the matched sequence is as it was
before the call (the link list when neither of its two flags occurs), and
`RuntimeIncludePath`, which has no flag, is as it was in every case. -/
theorem parseArgs_untouched_fields (Table : OptTable) (inv inv2 : CompilerInvocation)
    (Args : List String) (Diags Diags2 : List Diagnostic)
    (hlen : EntriesWithinArgs Args (Table.ParseArgs Args))
    (h : parseArgs Table inv Args Diags = some (false, inv2, Diags2)) :
    inv2.RuntimeIncludePath = inv.RuntimeIncludePath ∧
    (occurrences (Table.ParseArgs Args).Args OptID.OPT_target = [] →
      inv2.TargetTriple = inv.TargetTriple) ∧
    (occurrences (Table.ParseArgs Args).Args OptID.OPT_o = [] →
      inv2.FrontendOpts.OutputFilename = inv.FrontendOpts.OutputFilename) ∧
    (occurrences (Table.ParseArgs Args).Args OptID.OPT_module_name = [] →
      inv2.FrontendOpts.ModuleName = inv.FrontendOpts.ModuleName) ∧
    (occurrences (Table.ParseArgs Args).Args OptID.OPT_serialize_diagnostics = [] →
      inv2.FrontendOpts.SerializedDiagnosticsPath
        = inv.FrontendOpts.SerializedDiagnosticsPath) ∧
    (occurrences (Table.ParseArgs Args).Args OptID.OPT_INPUT = [] →
      inv2.FrontendOpts.InputFilenames = inv.FrontendOpts.InputFilenames) ∧
    (occurrences (Table.ParseArgs Args).Args OptID.OPT_I = [] →
      inv2.ImportSearchPaths = inv.ImportSearchPaths) ∧
    (occurrences (Table.ParseArgs Args).Args OptID.OPT_F = [] →
      inv2.FrameworkSearchPaths = inv.FrameworkSearchPaths) ∧
    (occurrences (Table.ParseArgs Args).Args OptID.OPT_Xcc = [] →
      inv2.ExtraClangArgs = inv.ExtraClangArgs) ∧
    (occurrences (Table.ParseArgs Args).Args OptID.OPT_sdk = [] →
      inv2.SDKPath = inv.SDKPath) ∧
    (occurrences (Table.ParseArgs Args).Args OptID.OPT_module_cache_path = [] →
      inv2.ClangModuleCachePath = inv.ClangModuleCachePath) ∧
    (occurrences (Table.ParseArgs Args).Args OptID.OPT_module_source_list = [] →
      inv2.ModuleSourceListPath = inv.ModuleSourceListPath) ∧
    (occurrences (Table.ParseArgs Args).Args OptID.OPT_l = [] →
      occurrences (Table.ParseArgs Args).Args OptID.OPT_framework = [] →
      inv2.LinkLibraries = inv.LinkLibraries) ∧
    (occurrences (Table.ParseArgs Args).Args OptID.OPT_parse_as_library = [] →
      inv2.InputKind = inv.InputKind) ∧
    (occurrences (Table.ParseArgs Args).Args OptID.OPT_parse_stdlib = [] →
      inv2.ParseStdlib = inv.ParseStdlib) ∧
    (occurrences (Table.ParseArgs Args).Args OptID.OPT_debug_constraints = [] →
      inv2.LangOpts.DebugConstraintSolver = inv.LangOpts.DebugConstraintSolver) := by
  obtain ⟨O, hP, hW, -⟩ := parseArgs_success hlen h
  obtain ⟨ho, hm, hd, hN⟩ := ParseFrontendArgs_some hP
  have hF : inv2.FrontendOpts = O :=
    walk_unchanged (fun i => i.FrontendOpts) (fun _ _ _ hs => walkStep_FrontendOpts hs) _ _ _ hW
  refine ⟨?_, ?_, ?_, ?_, ?_, ?_, ?_, ?_, ?_, ?_, ?_, ?_, ?_, ?_, ?_, ?_⟩
  · exact walk_unchanged (fun i => i.RuntimeIncludePath)
      (fun _ _ _ hs => walkStep_RuntimeIncludePath hs) _ { inv with FrontendOpts := O } _ hW
  · intro hn
    have := walk_lastWins (fun i => some i.TargetTriple) OptID.OPT_target
      (fun _ _ _ hs => walkStep_TargetTriple hs) _ { inv with FrontendOpts := O } _ hW
    rw [lastOccurrence_of_no_occurrence hn] at this
    exact Option.some.inj this
  · intro hn
    have := assignLastValue_some ho
    rw [lastOccurrence_of_no_occurrence hn] at this
    rw [hF]; exact this
  · intro hn
    have := assignLastValue_some hm
    rw [lastOccurrence_of_no_occurrence hn] at this
    rw [hF]; exact this
  · intro hn
    have := assignLastValue_some hd
    rw [lastOccurrence_of_no_occurrence hn] at this
    rw [hF]; exact this
  · intro hn
    have := pushInputs_some _ _ _ hN
    unfold occurrences at hn
    unfold filtered at this
    rw [hn, List.map_nil, List.append_nil] at this
    rw [hF]; exact map_some_cancel this
  · intro hn
    exact walk_accumulates_nothing (fun i => i.ImportSearchPaths)
      (fun A => decide (A.Opt = OptID.OPT_I)) Arg.getValue
      (fun _ _ _ hs => walkStep_ImportSearchPaths hs) _ { inv with FrontendOpts := O } _ hW hn
  · intro hn
    exact walk_accumulates_nothing (fun i => i.FrameworkSearchPaths)
      (fun A => decide (A.Opt = OptID.OPT_F)) Arg.getValue
      (fun _ _ _ hs => walkStep_FrameworkSearchPaths hs) _ { inv with FrontendOpts := O } _ hW hn
  · intro hn
    exact walk_accumulates_nothing (fun i => i.ExtraClangArgs)
      (fun A => decide (A.Opt = OptID.OPT_Xcc)) Arg.getValue
      (fun _ _ _ hs => walkStep_ExtraClangArgs hs) _ { inv with FrontendOpts := O } _ hW hn
  · intro hn
    have := walk_lastWins (fun i => i.SDKPath) OptID.OPT_sdk
      (fun _ _ _ hs => walkStep_SDKPath hs) _ { inv with FrontendOpts := O } _ hW
    rw [lastOccurrence_of_no_occurrence hn] at this
    exact this
  · intro hn
    have := walk_lastWins (fun i => i.ClangModuleCachePath) OptID.OPT_module_cache_path
      (fun _ _ _ hs => walkStep_ClangModuleCachePath hs) _ { inv with FrontendOpts := O } _ hW
    rw [lastOccurrence_of_no_occurrence hn] at this
    exact this
  · intro hn
    have := walk_lastWins (fun i => i.ModuleSourceListPath) OptID.OPT_module_source_list
      (fun _ _ _ hs => walkStep_ModuleSourceListPath hs) _ { inv with FrontendOpts := O } _ hW
    rw [lastOccurrence_of_no_occurrence hn] at this
    exact this
  · intro hl hf
    refine walk_accumulates_nothing (fun i => i.LinkLibraries)
      (fun A => decide (A.Opt = OptID.OPT_l) || decide (A.Opt = OptID.OPT_framework))
      linkRequest (fun _ _ _ hs => walkStep_LinkLibraries hs) _
      { inv with FrontendOpts := O } _ hW ?_
    unfold occurrences at hl hf
    rw [List.filter_eq_nil_iff] at hl hf ⊢
    intro A hA
    have h1 := hl A hA
    have h2 := hf A hA
    simp only [Bool.or_eq_true, not_or]
    exact ⟨h1, h2⟩
  · intro hn
    have := walk_InputKind _ _ _ hW
    rw [any_of_no_occurrence hn] at this
    simpa using this
  · intro hn
    have : inv2.ParseStdlib = (inv.ParseStdlib
        || (Table.ParseArgs Args).Args.any
            (fun A => decide (A.Opt = OptID.OPT_parse_stdlib))) :=
      walk_setsFlag (fun i => i.ParseStdlib) OptID.OPT_parse_stdlib
        (fun _ _ _ hs => walkStep_ParseStdlib hs) _ { inv with FrontendOpts := O } _ hW
    rw [any_of_no_occurrence hn, Bool.or_false] at this
    exact this
  · intro hn
    have : inv2.LangOpts.DebugConstraintSolver = (inv.LangOpts.DebugConstraintSolver
        || (Table.ParseArgs Args).Args.any
            (fun A => decide (A.Opt = OptID.OPT_debug_constraints))) :=
      walk_setsFlag (fun i => i.LangOpts.DebugConstraintSolver) OptID.OPT_debug_constraints
        (fun _ _ _ hs => walkStep_DebugConstraintSolver hs) _ { inv with FrontendOpts := O } _ hW
    rw [any_of_no_occurrence hn, Bool.or_false] at this
    exact this


/-- C12, on the example catalog: an object with fields set beforehand, and
an argument list without `-sdk`, `-l`, `-framework` and `-target`. -/
theorem parseArgs_untouched_fields_witness :
    EntriesWithinArgs exampleArgsFlags (exampleTable.ParseArgs exampleArgsFlags) ∧
    parseArgs exampleTable examplePreset exampleArgsFlags []
      = some (false, examplePresetResolved, []) ∧
    occurrences (exampleTable.ParseArgs exampleArgsFlags).Args OptID.OPT_sdk = [] ∧
    examplePresetResolved.SDKPath = some "sdk0" ∧
    examplePresetResolved.RuntimeIncludePath = some "/opt/toolchain/lib/swift" ∧
    (examplePresetResolved.RuntimeIncludePath = examplePreset.RuntimeIncludePath ∧
    (occurrences (exampleTable.ParseArgs exampleArgsFlags).Args OptID.OPT_target = [] →
      examplePresetResolved.TargetTriple = examplePreset.TargetTriple) ∧
    (occurrences (exampleTable.ParseArgs exampleArgsFlags).Args OptID.OPT_o = [] →
      examplePresetResolved.FrontendOpts.OutputFilename
        = examplePreset.FrontendOpts.OutputFilename) ∧
    (occurrences (exampleTable.ParseArgs exampleArgsFlags).Args OptID.OPT_module_name = [] →
      examplePresetResolved.FrontendOpts.ModuleName = examplePreset.FrontendOpts.ModuleName) ∧
    (occurrences (exampleTable.ParseArgs exampleArgsFlags).Args
        OptID.OPT_serialize_diagnostics = [] →
      examplePresetResolved.FrontendOpts.SerializedDiagnosticsPath
        = examplePreset.FrontendOpts.SerializedDiagnosticsPath) ∧
    (occurrences (exampleTable.ParseArgs exampleArgsFlags).Args OptID.OPT_INPUT = [] →
      examplePresetResolved.FrontendOpts.InputFilenames
        = examplePreset.FrontendOpts.InputFilenames) ∧
    (occurrences (exampleTable.ParseArgs exampleArgsFlags).Args OptID.OPT_I = [] →
      examplePresetResolved.ImportSearchPaths = examplePreset.ImportSearchPaths) ∧
    (occurrences (exampleTable.ParseArgs exampleArgsFlags).Args OptID.OPT_F = [] →
      examplePresetResolved.FrameworkSearchPaths = examplePreset.FrameworkSearchPaths) ∧
    (occurrences (exampleTable.ParseArgs exampleArgsFlags).Args OptID.OPT_Xcc = [] →
      examplePresetResolved.ExtraClangArgs = examplePreset.ExtraClangArgs) ∧
    (occurrences (exampleTable.ParseArgs exampleArgsFlags).Args OptID.OPT_sdk = [] →
      examplePresetResolved.SDKPath = examplePreset.SDKPath) ∧
    (occurrences (exampleTable.ParseArgs exampleArgsFlags).Args
        OptID.OPT_module_cache_path = [] →
      examplePresetResolved.ClangModuleCachePath = examplePreset.ClangModuleCachePath) ∧
    (occurrences (exampleTable.ParseArgs exampleArgsFlags).Args
        OptID.OPT_module_source_list = [] →
      examplePresetResolved.ModuleSourceListPath = examplePreset.ModuleSourceListPath) ∧
    (occurrences (exampleTable.ParseArgs exampleArgsFlags).Args OptID.OPT_l = [] →
      occurrences (exampleTable.ParseArgs exampleArgsFlags).Args OptID.OPT_framework = [] →
      examplePresetResolved.LinkLibraries = examplePreset.LinkLibraries) ∧
    (occurrences (exampleTable.ParseArgs exampleArgsFlags).Args
        OptID.OPT_parse_as_library = [] →
      examplePresetResolved.InputKind = examplePreset.InputKind) ∧
    (occurrences (exampleTable.ParseArgs exampleArgsFlags).Args OptID.OPT_parse_stdlib = [] →
      examplePresetResolved.ParseStdlib = examplePreset.ParseStdlib) ∧
    (occurrences (exampleTable.ParseArgs exampleArgsFlags).Args
        OptID.OPT_debug_constraints = [] →
      examplePresetResolved.LangOpts.DebugConstraintSolver
        = examplePreset.LangOpts.DebugConstraintSolver)) :=
  ⟨by decide, by decide, by decide, rfl, rfl,
   parseArgs_untouched_fields exampleTable examplePreset examplePresetResolved
     exampleArgsFlags [] [] (by decide) (by decide)⟩


/-! ## Every outcome of `parseArgs` -/

/-- The four ways in which `parseArgs` reaches a `return`. -/
theorem parseArgs_cases {Table : OptTable} {inv inv2 : CompilerInvocation}
    {Args : List String} {Diags Diags2 : List Diagnostic} {b : Bool}
    (h : parseArgs Table inv Args Diags = some (b, inv2, Diags2)) :
    (Args = [] ∧ b = false ∧ inv2 = inv ∧ Diags2 = Diags) ∨
    (Args ≠ [] ∧ (Table.ParseArgs Args).MissingCount ≠ 0 ∧ b = true ∧ inv2 = inv ∧
      ∃ s, getArgString Args (Table.ParseArgs Args).MissingIndex = some s ∧
        Diags2 = Diags ++
          [Diagnostic.error_missing_arg_value s (Table.ParseArgs Args).MissingCount]) ∨
    (Args ≠ [] ∧ (Table.ParseArgs Args).MissingCount = 0 ∧
      hasArg (Table.ParseArgs Args).Args OptID.OPT_UNKNOWN = true ∧ b = true ∧ inv2 = inv ∧
      Diags2 = Diags ++ (filtered (Table.ParseArgs Args).Args OptID.OPT_UNKNOWN).map
        (fun A => Diagnostic.error_unknown_arg A.AsString)) ∨
    (Args ≠ [] ∧ (Table.ParseArgs Args).MissingCount = 0 ∧
      hasArg (Table.ParseArgs Args).Args OptID.OPT_UNKNOWN = false ∧ b = false ∧
      Diags2 = Diags ∧
      ∃ O, ParseFrontendArgs inv.FrontendOpts (Table.ParseArgs Args).Args = some (false, O) ∧
        walk { inv with FrontendOpts := O } (Table.ParseArgs Args).Args = some inv2) := by
  unfold parseArgs at h
  split at h
  · rename_i hE
    have hA : Args = [] := by simpa using hE
    simp only [Option.some.injEq, Prod.mk.injEq] at h
    obtain ⟨rfl, rfl, rfl⟩ := h
    exact Or.inl ⟨hA, rfl, rfl, rfl⟩
  · rename_i hE
    have hA : Args ≠ [] := by simpa using hE
    simp only [] at h
    split at h
    · rename_i hM
      split at h
      · simp at h
      · rename_i s hs
        simp only [Option.some.injEq, Prod.mk.injEq] at h
        obtain ⟨rfl, rfl, rfl⟩ := h
        exact Or.inr (Or.inl ⟨hA, hM, rfl, rfl, s, hs, rfl⟩)
    · rename_i hM
      have hM0 : (Table.ParseArgs Args).MissingCount = 0 := by
        by_contra hne
        exact hM hne
      split at h
      · rename_i hU
        simp only [Option.some.injEq, Prod.mk.injEq] at h
        obtain ⟨rfl, rfl, rfl⟩ := h
        exact Or.inr (Or.inr (Or.inl ⟨hA, hM0, hU, rfl, rfl, rfl⟩))
      · rename_i hU
        have hU0 : hasArg (Table.ParseArgs Args).Args OptID.OPT_UNKNOWN = false := by
          simpa using hU
        split at h
        · simp at h
        · rename_i hP
          exact absurd (ParseFrontendArgs_returns_false hP) (by simp)
        · rename_i O hP
          split at h
          · simp at h
          · rename_i inv1 hW
            simp only [Option.some.injEq, Prod.mk.injEq] at h
            obtain ⟨rfl, rfl, rfl⟩ := h
            exact Or.inr (Or.inr (Or.inr ⟨hA, hM0, hU0, rfl, rfl, O, hP, hW⟩))

/-! ## Monotone steps -/

theorem Grows.refl (a : CompilerInvocation) : Grows a a :=
  ⟨id, id, id, ⟨[], by simp⟩, ⟨[], by simp⟩, ⟨[], by simp⟩, ⟨[], by simp⟩, ⟨[], by simp⟩⟩

theorem Grows.trans {a b c : CompilerInvocation} (h1 : Grows a b) (h2 : Grows b c) :
    Grows a c := by
  obtain ⟨p1, d1, k1, ⟨t1, e1⟩, ⟨t2, e2⟩, ⟨t3, e3⟩, ⟨t4, e4⟩, ⟨t5, e5⟩⟩ := h1
  obtain ⟨p2, d2, k2, ⟨u1, f1⟩, ⟨u2, f2⟩, ⟨u3, f3⟩, ⟨u4, f4⟩, ⟨u5, f5⟩⟩ := h2
  exact ⟨fun h => p2 (p1 h), fun h => d2 (d1 h), fun h => k2 (k1 h),
    ⟨t1 ++ u1, by rw [f1, e1, List.append_assoc]⟩,
    ⟨t2 ++ u2, by rw [f2, e2, List.append_assoc]⟩,
    ⟨t3 ++ u3, by rw [f3, e3, List.append_assoc]⟩,
    ⟨t4 ++ u4, by rw [f4, e4, List.append_assoc]⟩,
    ⟨t5 ++ u5, by rw [f5, e5, List.append_assoc]⟩⟩

theorem walkStep_Grows {inv inv1 : CompilerInvocation} {A : Arg}
    (h : walkStep inv A = some inv1) : Grows inv inv1 := by
  revert h
  unfold walkStep Grows
  cases A.Opt <;> simp only [Option.map_eq_some', Option.some.injEq] <;>
    first
    | (rintro ⟨v, hv, rfl⟩
       simp [setTargetTriple, setSDKPath, setClangModuleCachePath,
         setModuleSourceListPath, addLinkLibrary])
    | (rintro rfl; simp [setInputKind, setParseStdlib])

theorem walk_Grows (L : List Arg) (inv inv2 : CompilerInvocation)
    (h : walk inv L = some inv2) : Grows inv inv2 := by
  induction L generalizing inv with
  | nil => simp only [walk, Option.some.injEq] at h; rw [h]; exact Grows.refl _
  | cons A rest ih =>
    obtain ⟨inv1, h1, h2⟩ := walk_cons_some h
    exact Grows.trans (walkStep_Grows h1) (ih inv1 h2)

theorem pushInputs_continues (L : List Arg) (Names Names1 : List String)
    (h : pushInputs Names L = some Names1) : ∃ t, Names1 = Names ++ t := by
  induction L generalizing Names with
  | nil => simp only [pushInputs, Option.some.injEq] at h; exact ⟨[], by simp [h]⟩
  | cons A rest ih =>
    unfold pushInputs at h
    cases hv : A.getValue with
    | none => rw [hv] at h; simp at h
    | some v =>
      rw [hv] at h
      obtain ⟨t, ht⟩ := ih (Names ++ [v]) h
      exact ⟨v :: t, by rw [ht]; simp⟩


theorem ParseFrontendArgs_Grows {inv : CompilerInvocation} {O : FrontendOptions}
    {L : List Arg} {b : Bool} (h : ParseFrontendArgs inv.FrontendOpts L = some (b, O)) :
    Grows inv { inv with FrontendOpts := O } := by
  obtain ⟨-, -, -, hN⟩ := ParseFrontendArgs_some h
  obtain ⟨t, ht⟩ := pushInputs_continues _ _ _ hN
  exact ⟨id, id, id, ⟨t, ht⟩, ⟨[], by simp⟩, ⟨[], by simp⟩, ⟨[], by simp⟩, ⟨[], by simp⟩⟩

/-- C16: every step of the walk over the matched sequence, and every run of
the loop over the positional entries, only moves the object upwards: a flag
that is true stays true, `Library` stays `Library`, and each list after the
step is the list before it followed by what the step appends.  Hence the
object after any call of `parseArgs` that returns, successful or not, stands
in that relation to the object before it. -/
theorem resolution_steps_grow (Table : OptTable) (inv : CompilerInvocation)
    (Args : List String) (Diags : List Diagnostic) :
    (∀ (inv0 inv1 : CompilerInvocation) (A : Arg),
      walkStep inv0 A = some inv1 → Grows inv0 inv1) ∧
    (∀ (Names Names1 : List String) (L : List Arg),
      pushInputs Names L = some Names1 → ∃ t, Names1 = Names ++ t) ∧
    (∀ (b : Bool) (inv2 : CompilerInvocation) (Diags2 : List Diagnostic),
      parseArgs Table inv Args Diags = some (b, inv2, Diags2) → Grows inv inv2) := by
  refine ⟨fun _ _ _ hs => walkStep_Grows hs, fun N N1 L hp => pushInputs_continues L N N1 hp, ?_⟩
  intro b inv2 Diags2 h
  rcases parseArgs_cases h with ⟨-, -, rfl, -⟩ | ⟨-, -, -, rfl, -⟩ | ⟨-, -, -, -, rfl, -⟩ |
    ⟨-, -, -, -, -, O, hP, hW⟩
  · exact Grows.refl _
  · exact Grows.refl _
  · exact Grows.refl _
  · exact Grows.trans (ParseFrontendArgs_Grows hP) (walk_Grows _ _ _ hW)

/-- C16, on the example catalog: the object with fields set beforehand and
the object it resolves to. -/
theorem resolution_steps_grow_witness :
    parseArgs exampleTable examplePreset exampleArgsFlags []
      = some (false, examplePresetResolved, []) ∧
    walkStep examplePreset { Opt := OptID.OPT_I, Values := ["p"], AsString := "-I p" }
      = some { examplePreset with ImportSearchPaths := ["q", "p"] } ∧
    Grows examplePreset { examplePreset with ImportSearchPaths := ["q", "p"] } ∧
    Grows examplePreset examplePresetResolved :=
  ⟨by decide, by decide,
   (resolution_steps_grow exampleTable examplePreset exampleArgsFlags []).1
     examplePreset { examplePreset with ImportSearchPaths := ["q", "p"] }
     { Opt := OptID.OPT_I, Values := ["p"], AsString := "-I p" } (by decide),
   (resolution_steps_grow exampleTable examplePreset exampleArgsFlags []).2.2
     false examplePresetResolved [] (by decide)⟩


/-! ## No fault under the contract of the matcher -/

theorem parseArgs_total (Table : OptTable) (inv : CompilerInvocation) (Args : List String)
    (Diags : List Diagnostic)
    (hidx : MissingIndexValid Args (Table.ParseArgs Args))
    (hval : ValuesPresent (Table.ParseArgs Args)) :
    ∃ b inv2 Diags2, parseArgs Table inv Args Diags = some (b, inv2, Diags2) := by
  unfold MissingIndexValid at hidx
  unfold ValuesPresent at hval
  unfold parseArgs
  by_cases hE : Args.isEmpty = true
  · exact ⟨false, inv, Diags, by simp [hE]⟩
  · simp only [hE, Bool.false_eq_true, if_false]
    by_cases hM : (Table.ParseArgs Args).MissingCount = 0
    · simp only [hM, ne_eq, not_true_eq_false, if_false]
      by_cases hU : hasArg (Table.ParseArgs Args).Args OptID.OPT_UNKNOWN = true
      · simp only [hU, if_true]
        exact ⟨true, inv, _, rfl⟩
      · simp only [hU, Bool.false_eq_true, if_false]
        obtain ⟨O, hO⟩ := ParseFrontendArgs_total inv.FrontendOpts (Table.ParseArgs Args).Args
          hval
        obtain ⟨inv1, h1⟩ := walk_total (Table.ParseArgs Args).Args
          { inv with FrontendOpts := O } hval
        exact ⟨false, inv1, Diags, by simp [hO, h1]⟩
    · have hlt := hidx hM
      have hget : getArgString Args (Table.ParseArgs Args).MissingIndex
          = some (Args.get ⟨_, hlt⟩) := by
        unfold getArgString
        simp [List.getElem?_eq_getElem hlt]
      simp only [ne_eq, hM, not_false_eq_true, if_true, hget]
      exact ⟨true, inv, _, rfl⟩

/-- An entry whose identity is not value-carrying passes the `switch` without
a read of its values. -/
theorem walkStep_without_value (inv : CompilerInvocation) (A : Arg)
    (h : carriesValue A.Opt = false) : ∃ inv1, walkStep inv A = some inv1 :=
  walkStep_total inv A (fun hc => by rw [h] at hc; exact absurd hc (by simp))

/-- What a returning call emits: nothing on success, at least one diagnostic
on failure. -/
theorem parseArgs_emitted {Table : OptTable} {inv inv2 : CompilerInvocation}
    {Args : List String} {Diags Diags2 : List Diagnostic} {b : Bool}
    (h : parseArgs Table inv Args Diags = some (b, inv2, Diags2)) :
    ∃ Emitted, Diags2 = Diags ++ Emitted ∧ (1 ≤ Emitted.length ↔ b = true) ∧
      (b = false → Emitted = []) := by
  rcases parseArgs_cases h with ⟨-, rfl, -, rfl⟩ | ⟨-, -, rfl, -, s, -, rfl⟩ |
    ⟨-, -, hU, rfl, -, rfl⟩ | ⟨-, -, -, rfl, rfl, -⟩
  · exact ⟨[], by simp, by simp, fun _ => rfl⟩
  · exact ⟨_, rfl, by simp, by simp⟩
  · refine ⟨_, rfl, ?_, by simp⟩
    obtain ⟨A, hA, hopt⟩ := (hasArg_iff _ _).mp hU
    have hmem : A ∈ filtered (Table.ParseArgs Args).Args OptID.OPT_UNKNOWN := by
      unfold filtered
      rw [List.mem_filter]
      exact ⟨hA, by simpa using hopt⟩
    have hpos := List.length_pos_of_mem hmem
    simp only [List.length_map, iff_true]
    omega
  · exact ⟨[], by simp, by simp, fun _ => rfl⟩

/-- C17: under the arity contract (an entry of a value-carrying identity has
a value) and with a missing index that is the index of an argument whenever
the missing count is non-zero, `parseArgs` never faults: it reaches a
`return`.  Values are read only from entries of value-carrying identities:
an entry of any other identity, the three flag-only ones among them, passes
the `switch` whatever values it has or lacks.  And on a missing value or an
unknown option the call returns failure with the object as it was. -/
theorem parseArgs_never_faults (Table : OptTable) (inv : CompilerInvocation)
    (Args : List String) (Diags : List Diagnostic)
    (hidx : MissingIndexValid Args (Table.ParseArgs Args))
    (hval : ValuesPresent (Table.ParseArgs Args)) :
    (∃ b inv2 Diags2, parseArgs Table inv Args Diags = some (b, inv2, Diags2)) ∧
    (∀ (inv0 : CompilerInvocation) (A : Arg), carriesValue A.Opt = false →
      ∃ inv1, walkStep inv0 A = some inv1) ∧
    (carriesValue OptID.OPT_parse_as_library = false ∧
      carriesValue OptID.OPT_parse_stdlib = false ∧
      carriesValue OptID.OPT_debug_constraints = false) ∧
    (Args ≠ [] →
      ((Table.ParseArgs Args).MissingCount ≠ 0 ∨
        ∃ A ∈ (Table.ParseArgs Args).Args, A.Opt = OptID.OPT_UNKNOWN) →
      ∃ Diags2, parseArgs Table inv Args Diags = some (true, inv, Diags2)) := by
  refine ⟨parseArgs_total Table inv Args Diags hidx hval,
    fun inv0 A hA => walkStep_without_value inv0 A hA, ⟨rfl, rfl, rfl⟩, ?_⟩
  intro hne herr
  obtain ⟨b, inv2, Diags2, h⟩ := parseArgs_total Table inv Args Diags hidx hval
  rcases parseArgs_cases h with ⟨hE, -⟩ | ⟨-, -, rfl, rfl, -⟩ | ⟨-, -, -, rfl, rfl, -⟩ |
    ⟨-, hM, hU, -⟩
  · exact absurd hE hne
  · exact ⟨Diags2, h⟩
  · exact ⟨Diags2, h⟩
  · rcases herr with hM1 | hex
    · exact absurd hM hM1
    · have := (hasArg_iff _ _).mpr hex
      rw [hU] at this
      exact absurd this (by simp)

/-- C17, on the example catalog: a flag-only entry without values, then a
missing value. -/
theorem parseArgs_never_faults_witness :
    MissingIndexValid ["-parse-stdlib", "-I"] (exampleTable.ParseArgs ["-parse-stdlib", "-I"]) ∧
    ValuesPresent (exampleTable.ParseArgs ["-parse-stdlib", "-I"]) ∧
    (exampleTable.ParseArgs ["-parse-stdlib", "-I"]).MissingCount = 1 ∧
    ((∃ b inv2 Diags2,
      parseArgs exampleTable examplePreset ["-parse-stdlib", "-I"] [] = some (b, inv2, Diags2)) ∧
    (∀ (inv0 : CompilerInvocation) (A : Arg), carriesValue A.Opt = false →
      ∃ inv1, walkStep inv0 A = some inv1) ∧
    (carriesValue OptID.OPT_parse_as_library = false ∧
      carriesValue OptID.OPT_parse_stdlib = false ∧
      carriesValue OptID.OPT_debug_constraints = false) ∧
    (["-parse-stdlib", "-I"] ≠ [] →
      ((exampleTable.ParseArgs ["-parse-stdlib", "-I"]).MissingCount ≠ 0 ∨
        ∃ A ∈ (exampleTable.ParseArgs ["-parse-stdlib", "-I"]).Args,
          A.Opt = OptID.OPT_UNKNOWN) →
      ∃ Diags2, parseArgs exampleTable examplePreset ["-parse-stdlib", "-I"] []
        = some (true, examplePreset, Diags2))) :=
  ⟨by decide, by decide, by decide,
   parseArgs_never_faults exampleTable examplePreset ["-parse-stdlib", "-I"] []
     (by decide) (by decide)⟩

/-- C20: under the contract of the matcher that keeps the call from
faulting, `parseArgs` returns, and what it emits agrees with what it returns:
at least one diagnostic exactly when the result is failure, none at all when
the result is success. -/
theorem parseArgs_diagnostics_agree (Table : OptTable) (inv : CompilerInvocation)
    (Args : List String) (Diags : List Diagnostic)
    (hidx : MissingIndexValid Args (Table.ParseArgs Args))
    (hval : ValuesPresent (Table.ParseArgs Args)) :
    ∃ b inv2 Emitted, parseArgs Table inv Args Diags = some (b, inv2, Diags ++ Emitted) ∧
      (1 ≤ Emitted.length ↔ b = true) ∧ (b = false → Emitted = []) := by
  obtain ⟨b, inv2, Diags2, h⟩ := parseArgs_total Table inv Args Diags hidx hval
  obtain ⟨Emitted, rfl, hiff, hnone⟩ := parseArgs_emitted h
  exact ⟨b, inv2, Emitted, h, hiff, hnone⟩

/-- C20, on the example catalog: a successful resolution. -/
theorem parseArgs_diagnostics_agree_witness :
    MissingIndexValid exampleArgsFlags (exampleTable.ParseArgs exampleArgsFlags) ∧
    ValuesPresent (exampleTable.ParseArgs exampleArgsFlags) ∧
    parseArgs exampleTable examplePreset exampleArgsFlags []
      = some (false, examplePresetResolved, []) ∧
    ∃ b inv2 Emitted,
      parseArgs exampleTable examplePreset exampleArgsFlags [] = some (b, inv2, [] ++ Emitted) ∧
      (1 ≤ Emitted.length ↔ b = true) ∧ (b = false → Emitted = []) :=
  ⟨by decide, by decide, by decide,
   parseArgs_diagnostics_agree exampleTable examplePreset exampleArgsFlags []
     (by decide) (by decide)⟩


/-! ## Entries without a case -/

theorem walkStep_ignored (inv : CompilerInvocation) (A : Arg)
    (h : hasExplicitCase A.Opt = false) : walkStep inv A = some inv := by
  revert h
  unfold walkStep hasExplicitCase carriesValue
  cases A.Opt <;> simp

theorem walk_filter_kept (p : Arg → Bool)
    (hp : ∀ A : Arg, p A = false → hasExplicitCase A.Opt = false)
    (L : List Arg) (inv : CompilerInvocation) :
    walk inv (L.filter p) = walk inv L := by
  induction L generalizing inv with
  | nil => rfl
  | cons A rest ih =>
    by_cases hA : p A = true
    · rw [List.filter_cons_of_pos hA]
      unfold walk
      cases walkStep inv A with
      | none => rfl
      | some inv1 => exact ih inv1
    · rw [List.filter_cons_of_neg hA]
      have hs := walkStep_ignored inv A (hp A (by simpa using hA))
      conv_rhs => unfold walk
      simp only [hs]
      exact ih inv

theorem kept_of_explicit_case {A : Arg} {Id : OptID} (hId : hasExplicitCase Id = true)
    (hA : A.Opt = Id) : (!ignoredEntry A) = true := by
  unfold ignoredEntry
  rw [hA, hId]
  rfl

/-- C15: entries whose identity is known to the catalog and has no explicit
case in the resolver are ignored: a successful resolution ends in the same
object as a successful resolution, from the same object, of the matched
sequence with those entries removed, and it emits no diagnostic. -/
theorem parseArgs_ignores_other_options (Table : OptTable) (inv inv1 inv2 : CompilerInvocation)
    (Args1 Args2 : List String) (Diags Diags1 Diags2 : List Diagnostic)
    (hlen1 : EntriesWithinArgs Args1 (Table.ParseArgs Args1))
    (hlen2 : EntriesWithinArgs Args2 (Table.ParseArgs Args2))
    (h1 : parseArgs Table inv Args1 Diags = some (false, inv1, Diags1))
    (h2 : parseArgs Table inv Args2 Diags = some (false, inv2, Diags2))
    (hrem : (Table.ParseArgs Args2).Args
      = (Table.ParseArgs Args1).Args.filter (fun A => !ignoredEntry A)) :
    inv1 = inv2 ∧ Diags1 = Diags := by
  obtain ⟨O1, hP1, hW1, hD1⟩ := parseArgs_success hlen1 h1
  obtain ⟨O2, hP2, hW2, -⟩ := parseArgs_success hlen2 h2
  rw [hrem] at hP2 hW2
  rw [ParseFrontendArgs_filter _
    (fun A hA => kept_of_explicit_case (by decide) hA)
    (fun A hA => kept_of_explicit_case (by decide) hA)
    (fun A hA => kept_of_explicit_case (by decide) hA)
    (fun A hA => kept_of_explicit_case (by decide) hA), hP1] at hP2
  simp only [Option.some.injEq, Prod.mk.injEq, true_and] at hP2
  subst hP2
  rw [walk_filter_kept _ (fun A hA => by
    unfold ignoredEntry at hA
    simp only [Bool.not_eq_false', Bool.and_eq_true, Bool.not_eq_true'] at hA
    exact hA.1), hW1] at hW2
  exact ⟨Option.some.inj hW2, hD1⟩

/-- C15, on the example catalog: the list with `-v` and the list without
it. -/
theorem parseArgs_ignores_other_options_witness :
    EntriesWithinArgs exampleArgsFlags (exampleTable.ParseArgs exampleArgsFlags) ∧
    EntriesWithinArgs exampleArgsFlagsOnly (exampleTable.ParseArgs exampleArgsFlagsOnly) ∧
    parseArgs exampleTable examplePreset exampleArgsFlags []
      = some (false, examplePresetResolved, []) ∧
    parseArgs exampleTable examplePreset exampleArgsFlagsOnly []
      = some (false, examplePresetResolved, []) ∧
    (exampleTable.ParseArgs exampleArgsFlagsOnly).Args
      = (exampleTable.ParseArgs exampleArgsFlags).Args.filter (fun A => !ignoredEntry A) ∧
    (exampleTable.ParseArgs exampleArgsFlags).Args.length
      = (exampleTable.ParseArgs exampleArgsFlagsOnly).Args.length + 1 ∧
    (examplePresetResolved = examplePresetResolved ∧ ([] : List Diagnostic) = []) :=
  ⟨by decide, by decide, by decide, by decide, by decide, by decide,
   parseArgs_ignores_other_options exampleTable examplePreset examplePresetResolved
     examplePresetResolved exampleArgsFlags exampleArgsFlagsOnly [] [] []
     (by decide) (by decide) (by decide) (by decide) (by decide)⟩


/-! ## Last-occurrence lookup and overwrite fold -/

theorem getLastArg_cons (A : Arg) (rest : List Arg) (Id : OptID) :
    getLastArg (A :: rest) Id
      = (getLastArg rest Id).or (if A.Opt = Id then some A else none) := by
  unfold getLastArg
  rw [List.foldl_cons, foldl_keepLast, foldl_keepLast]
  simp

theorem overwriteFold_eq_assignLastValue (Id : OptID) (L : List Arg) (Field : Option String)
    (hv : ∀ A ∈ L, A.Opt = Id → A.Values ≠ []) :
    overwriteFold Id Field L = assignLastValue L Id Field := by
  induction L generalizing Field with
  | nil => rfl
  | cons A rest ih =>
    have hrest : ∀ B ∈ rest, B.Opt = Id → B.Values ≠ [] :=
      fun B hB => hv B (List.mem_cons_of_mem _ hB)
    unfold overwriteFold
    by_cases hopt : A.Opt = Id
    · obtain ⟨v, hval⟩ := getValue_of_values (hv A (List.mem_cons_self _ _) hopt)
      rw [if_pos hopt, hval]
      simp only []
      rw [ih (some v) hrest]
      unfold assignLastValue
      rw [getLastArg_cons, if_pos hopt]
      cases getLastArg rest Id with
      | none => simp [hval]
      | some B => rfl
    · rw [if_neg hopt, ih Field hrest]
      unfold assignLastValue
      rw [getLastArg_cons, if_neg hopt]
      cases getLastArg rest Id <;> rfl

/-- The walk follows the overwrite fold on every field that a step
overwrites. -/
theorem walk_follows_overwriteFold (proj : CompilerInvocation → Option String) (Id : OptID)
    (hstep : ∀ inv A inv1, walkStep inv A = some inv1 →
      if A.Opt = Id then ∃ v, A.getValue = some v ∧ proj inv1 = some v
      else proj inv1 = proj inv)
    (L : List Arg) (inv inv2 : CompilerInvocation) (h : walk inv L = some inv2) :
    overwriteFold Id (proj inv) L = some (proj inv2) := by
  induction L generalizing inv with
  | nil => simp only [walk, Option.some.injEq] at h; rw [h]; rfl
  | cons A rest ih =>
    obtain ⟨inv1, h1, h2⟩ := walk_cons_some h
    have hs := hstep inv A inv1 h1
    unfold overwriteFold
    by_cases hopt : A.Opt = Id
    · rw [if_pos hopt] at hs ⊢
      obtain ⟨v, hv, hp⟩ := hs
      rw [hv]
      simp only []
      rw [← hp]
      exact ih inv1 h2
    · rw [if_neg hopt] at hs ⊢
      rw [← hs]
      exact ih inv1 h2

/-- C18: on a matched sequence that keeps the arity contract, the lookup of
the last matching entry in `ParseFrontendArgs` and the left-to-right
overwrite fold agree on the output filename, the module name and the
serialized-diagnostics path, also when the flag is absent and the field is
left as it was; and the overwrite fold is the policy of the walk for the
target triple, the SDK path, the module-cache path and the module-source-list
path. -/
theorem lookup_agrees_with_overwrite_fold (Opts : FrontendOptions) (L : List Arg)
    (hval : ∀ A ∈ L, carriesValue A.Opt = true → A.Values ≠ []) :
    (∃ O, ParseFrontendArgs Opts L = some (false, O) ∧
      overwriteFold OptID.OPT_o Opts.OutputFilename L = some O.OutputFilename ∧
      overwriteFold OptID.OPT_module_name Opts.ModuleName L = some O.ModuleName ∧
      overwriteFold OptID.OPT_serialize_diagnostics Opts.SerializedDiagnosticsPath L
        = some O.SerializedDiagnosticsPath) ∧
    (∀ (Id : OptID) (Field : Option String), carriesValue Id = true →
      assignLastValue L Id Field = overwriteFold Id Field L ∧
      (occurrences L Id = [] → overwriteFold Id Field L = some Field)) ∧
    (∀ inv inv2 : CompilerInvocation, walk inv L = some inv2 →
      overwriteFold OptID.OPT_target (some inv.TargetTriple) L
        = some (some inv2.TargetTriple) ∧
      overwriteFold OptID.OPT_sdk inv.SDKPath L = some inv2.SDKPath ∧
      overwriteFold OptID.OPT_module_cache_path inv.ClangModuleCachePath L
        = some inv2.ClangModuleCachePath ∧
      overwriteFold OptID.OPT_module_source_list inv.ModuleSourceListPath L
        = some inv2.ModuleSourceListPath) := by
  have hId : ∀ Id : OptID, carriesValue Id = true → ∀ A ∈ L, A.Opt = Id → A.Values ≠ [] :=
    fun Id hc A hA hopt => hval A hA (by rw [hopt]; exact hc)
  refine ⟨?_, ?_, ?_⟩
  · obtain ⟨O, hO⟩ := ParseFrontendArgs_total Opts L hval
    obtain ⟨ho, hm, hd, -⟩ := ParseFrontendArgs_some hO
    refine ⟨O, hO, ?_, ?_, ?_⟩
    · rw [overwriteFold_eq_assignLastValue _ _ _ (hId OptID.OPT_o rfl), ho]
    · rw [overwriteFold_eq_assignLastValue _ _ _ (hId OptID.OPT_module_name rfl), hm]
    · rw [overwriteFold_eq_assignLastValue _ _ _ (hId OptID.OPT_serialize_diagnostics rfl), hd]
  · intro Id Field hc
    have heq := overwriteFold_eq_assignLastValue Id L Field (hId Id hc)
    refine ⟨heq.symm, fun hn => ?_⟩
    rw [heq]
    unfold assignLastValue
    rw [getLastArg_eq_getLast]
    unfold occurrences at hn
    rw [hn]
    rfl
  · intro inv inv2 hW
    exact ⟨walk_follows_overwriteFold (fun i => some i.TargetTriple) OptID.OPT_target
        (fun _ _ _ hs => walkStep_TargetTriple hs) L inv inv2 hW,
      walk_follows_overwriteFold (fun i => i.SDKPath) OptID.OPT_sdk
        (fun _ _ _ hs => walkStep_SDKPath hs) L inv inv2 hW,
      walk_follows_overwriteFold (fun i => i.ClangModuleCachePath) OptID.OPT_module_cache_path
        (fun _ _ _ hs => walkStep_ClangModuleCachePath hs) L inv inv2 hW,
      walk_follows_overwriteFold (fun i => i.ModuleSourceListPath) OptID.OPT_module_source_list
        (fun _ _ _ hs => walkStep_ModuleSourceListPath hs) L inv inv2 hW⟩

/-- C18, on the example catalog: `-o` twice; both styles leave `out2`. -/
theorem lookup_agrees_with_overwrite_fold_witness :
    (∀ A ∈ (exampleTable.ParseArgs exampleArgs).Args,
      carriesValue A.Opt = true → A.Values ≠ []) ∧
    overwriteFold OptID.OPT_o none (exampleTable.ParseArgs exampleArgs).Args
      = some (some "out2") ∧
    assignLastValue (exampleTable.ParseArgs exampleArgs).Args OptID.OPT_o none
      = some (some "out2") ∧
    ((∃ O, ParseFrontendArgs (CompilerInvocation.CompilerInvocation "host").FrontendOpts
        (exampleTable.ParseArgs exampleArgs).Args = some (false, O) ∧
      overwriteFold OptID.OPT_o
        (CompilerInvocation.CompilerInvocation "host").FrontendOpts.OutputFilename
        (exampleTable.ParseArgs exampleArgs).Args = some O.OutputFilename ∧
      overwriteFold OptID.OPT_module_name
        (CompilerInvocation.CompilerInvocation "host").FrontendOpts.ModuleName
        (exampleTable.ParseArgs exampleArgs).Args = some O.ModuleName ∧
      overwriteFold OptID.OPT_serialize_diagnostics
        (CompilerInvocation.CompilerInvocation "host").FrontendOpts.SerializedDiagnosticsPath
        (exampleTable.ParseArgs exampleArgs).Args = some O.SerializedDiagnosticsPath) ∧
    (∀ (Id : OptID) (Field : Option String), carriesValue Id = true →
      assignLastValue (exampleTable.ParseArgs exampleArgs).Args Id Field
        = overwriteFold Id Field (exampleTable.ParseArgs exampleArgs).Args ∧
      (occurrences (exampleTable.ParseArgs exampleArgs).Args Id = [] →
        overwriteFold Id Field (exampleTable.ParseArgs exampleArgs).Args = some Field)) ∧
    (∀ inv inv2 : CompilerInvocation,
      walk inv (exampleTable.ParseArgs exampleArgs).Args = some inv2 →
      overwriteFold OptID.OPT_target (some inv.TargetTriple)
        (exampleTable.ParseArgs exampleArgs).Args = some (some inv2.TargetTriple) ∧
      overwriteFold OptID.OPT_sdk inv.SDKPath (exampleTable.ParseArgs exampleArgs).Args
        = some inv2.SDKPath ∧
      overwriteFold OptID.OPT_module_cache_path inv.ClangModuleCachePath
        (exampleTable.ParseArgs exampleArgs).Args = some inv2.ClangModuleCachePath ∧
      overwriteFold OptID.OPT_module_source_list inv.ModuleSourceListPath
        (exampleTable.ParseArgs exampleArgs).Args = some inv2.ModuleSourceListPath)) :=
  ⟨by decide, by decide, by decide,
   lookup_agrees_with_overwrite_fold (CompilerInvocation.CompilerInvocation "host").FrontendOpts
     (exampleTable.ParseArgs exampleArgs).Args (by decide)⟩


/-! ## Resolution of a concatenation -/

theorem getLastArg_append (L1 L2 : List Arg) (Id : OptID) :
    getLastArg (L1 ++ L2) Id = (getLastArg L2 Id).or (getLastArg L1 Id) := by
  unfold getLastArg
  rw [List.foldl_append, foldl_keepLast Id L2, foldl_keepLast Id L2]
  simp

theorem assignLastValue_append {L1 L2 : List Arg} {Id : OptID} {F F1 F2 : Option String}
    (h1 : assignLastValue L1 Id F = some F1) (h2 : assignLastValue L2 Id F1 = some F2) :
    assignLastValue (L1 ++ L2) Id F = some F2 := by
  unfold assignLastValue at h1 h2 ⊢
  rw [getLastArg_append]
  revert h2
  cases getLastArg L2 Id with
  | some B => exact fun h2 => h2
  | none =>
    intro h2
    simp only [Option.some.injEq] at h2
    subst h2
    simpa using h1

theorem pushInputs_append (L1 L2 : List Arg) (N : List String) :
    pushInputs N (L1 ++ L2) = (pushInputs N L1).bind (fun N1 => pushInputs N1 L2) := by
  induction L1 generalizing N with
  | nil => rfl
  | cons A rest ih =>
    rw [List.cons_append]
    simp only [pushInputs]
    cases A.getValue with
    | none => rfl
    | some v => exact ih (N ++ [v])

theorem ParseFrontendArgs_append {Opts O1 O2 : FrontendOptions} {L1 L2 : List Arg}
    {b1 b2 : Bool}
    (h1 : ParseFrontendArgs Opts L1 = some (b1, O1))
    (h2 : ParseFrontendArgs O1 L2 = some (b2, O2)) :
    ParseFrontendArgs Opts (L1 ++ L2) = some (false, O2) := by
  obtain ⟨ho1, hm1, hd1, hN1⟩ := ParseFrontendArgs_some h1
  obtain ⟨ho2, hm2, hd2, hN2⟩ := ParseFrontendArgs_some h2
  have hN : pushInputs Opts.InputFilenames (filtered (L1 ++ L2) OptID.OPT_INPUT)
      = some O2.InputFilenames := by
    unfold filtered at hN1 hN2 ⊢
    rw [List.filter_append, pushInputs_append, hN1]
    exact hN2
  unfold ParseFrontendArgs
  rw [assignLastValue_append ho1 ho2, assignLastValue_append hm1 hm2,
    assignLastValue_append hd1 hd2, hN]
  rfl

theorem walk_append (L1 L2 : List Arg) (inv : CompilerInvocation) :
    walk inv (L1 ++ L2) = (walk inv L1).bind (fun i => walk i L2) := by
  induction L1 generalizing inv with
  | nil => rfl
  | cons A rest ih =>
    rw [List.cons_append]
    simp only [walk]
    cases walkStep inv A with
    | none => rfl
    | some inv1 => exact ih inv1

theorem walkStep_withFrontendOpts (inv : CompilerInvocation) (A : Arg) (O : FrontendOptions) :
    walkStep { inv with FrontendOpts := O } A
      = (walkStep inv A).map (fun r => { r with FrontendOpts := O }) := by
  unfold walkStep
  cases A.Opt <;> cases A.getValue <;> rfl

theorem walk_withFrontendOpts (L : List Arg) (inv : CompilerInvocation) (O : FrontendOptions) :
    walk { inv with FrontendOpts := O } L
      = (walk inv L).map (fun r => { r with FrontendOpts := O }) := by
  induction L generalizing inv with
  | nil => rfl
  | cons A rest ih =>
    unfold walk
    rw [walkStep_withFrontendOpts]
    cases walkStep inv A with
    | none => rfl
    | some inv1 => exact ih inv1

/-- Two successive resolutions, of `L1` and then of `L2`, are the resolution
of `L1 ++ L2`. -/
theorem resolve_append {inv inv1 inv2 : CompilerInvocation} {O1 O2 : FrontendOptions}
    {L1 L2 : List Arg} {b1 b2 : Bool}
    (hP1 : ParseFrontendArgs inv.FrontendOpts L1 = some (b1, O1))
    (hW1 : walk { inv with FrontendOpts := O1 } L1 = some inv1)
    (hP2 : ParseFrontendArgs inv1.FrontendOpts L2 = some (b2, O2))
    (hW2 : walk { inv1 with FrontendOpts := O2 } L2 = some inv2) :
    ParseFrontendArgs inv.FrontendOpts (L1 ++ L2) = some (false, O2) ∧
    walk { inv with FrontendOpts := O2 } (L1 ++ L2) = some inv2 := by
  have hF1 : inv1.FrontendOpts = O1 :=
    walk_unchanged (fun i => i.FrontendOpts) (fun _ _ _ hs => walkStep_FrontendOpts hs) _ _ _ hW1
  rw [hF1] at hP2
  refine ⟨ParseFrontendArgs_append hP1 hP2, ?_⟩
  rw [walk_withFrontendOpts] at hW1 hW2 ⊢
  rw [walk_append]
  cases hw : walk inv L1 with
  | none => rw [hw] at hW1; simp at hW1
  | some w1 =>
    rw [hw] at hW1
    simp only [Option.map_some', Option.some.injEq] at hW1
    subst hW1
    simp only [Option.some_bind]
    have := walk_withFrontendOpts L2 w1 O1
    rw [this] at hW2
    cases hw2 : walk w1 L2 with
    | none => rw [hw2] at hW2; simp at hW2
    | some w2 =>
      rw [hw2] at hW2
      simp only [Option.map_some', Option.some.injEq] at hW2 ⊢
      exact hW2


theorem parseArgs_success_no_unknown {Table : OptTable} {inv inv2 : CompilerInvocation}
    {Args : List String} {Diags Diags2 : List Diagnostic}
    (hlen : EntriesWithinArgs Args (Table.ParseArgs Args))
    (h : parseArgs Table inv Args Diags = some (false, inv2, Diags2)) :
    hasArg (Table.ParseArgs Args).Args OptID.OPT_UNKNOWN = false := by
  rcases parseArgs_cases h with ⟨hE, -⟩ | ⟨-, -, hb, -⟩ | ⟨-, -, -, hb, -⟩ | ⟨-, -, hU, -⟩
  · subst hE
    unfold EntriesWithinArgs at hlen
    have hnil : (Table.ParseArgs []).Args = [] := by
      apply List.eq_nil_of_length_eq_zero
      simpa using hlen
    rw [hnil]
    rfl
  · exact absurd hb (by simp)
  · exact absurd hb (by simp)
  · exact hU

theorem longer_of_appended {β : Type} {l1 l2 : List β} {t : List (Option β)}
    (h : l2.map some = l1.map some ++ t) (ht : t ≠ []) : l2 ≠ l1 := by
  intro heq
  have hl := congrArg List.length h
  rw [heq, List.length_append, List.length_map] at hl
  have : t.length = 0 := by omega
  exact ht (List.eq_nil_of_length_eq_zero this)

theorem map_filter_ne_nil {β : Type} {L : List Arg} {p : Arg → Bool} {A : Arg}
    (g : Arg → β) (hA : A ∈ L) (hp : p A = true) : (L.filter p).map g ≠ [] := by
  intro hnil
  have hmem : A ∈ L.filter p := List.mem_filter.mpr ⟨hA, hp⟩
  have hl := congrArg List.length hnil
  rw [List.length_map] at hl
  have := List.length_pos_of_mem hmem
  simp only [List.length_nil] at hl
  omega

/-- C19, as stated, fails: a non-empty, error-free argument list without
list-valued entries resolves to the same object the second time. -/
theorem resolving_twice_without_list_entries :
    exampleArgsNoList ≠ [] ∧
    parseArgs exampleTable (CompilerInvocation.CompilerInvocation "host") exampleArgsNoList []
      = some (false, exampleResolvedNoList, []) ∧
    parseArgs exampleTable exampleResolvedNoList exampleArgsNoList []
      = some (false, exampleResolvedNoList, []) := by
  decide

/-- C19, amended: resolution composes over concatenation, and resolving a
sequence twice differs from resolving it once whenever the sequence has an
entry that appends to a list.  For the first: when two successive calls, on
`Args1` and then on `Args2`, succeed, a call on an argument list whose
matched sequence is the concatenation of the two matched sequences (and
carries no missing-value error) succeeds with the same object and emits as
little.  For the second: when two successive calls on the same argument list
succeed and its matched sequence has a positional entry, a list flag or a
link flag, the object after the second call is not the object after the
first. -/
theorem resolution_composes (Table : OptTable) :
    (∀ (inv inv1 inv2 : CompilerInvocation) (Args1 Args2 Args12 : List String)
      (Diags Diags1 Diags2 : List Diagnostic),
      EntriesWithinArgs Args1 (Table.ParseArgs Args1) →
      EntriesWithinArgs Args2 (Table.ParseArgs Args2) →
      EntriesWithinArgs Args12 (Table.ParseArgs Args12) →
      (Table.ParseArgs Args12).MissingCount = 0 →
      (Table.ParseArgs Args12).Args
        = (Table.ParseArgs Args1).Args ++ (Table.ParseArgs Args2).Args →
      parseArgs Table inv Args1 Diags = some (false, inv1, Diags1) →
      parseArgs Table inv1 Args2 Diags1 = some (false, inv2, Diags2) →
      parseArgs Table inv Args12 Diags = some (false, inv2, Diags2)) ∧
    (∀ (inv inv1 inv2 : CompilerInvocation) (Args : List String)
      (Diags Diags1 Diags2 : List Diagnostic),
      EntriesWithinArgs Args (Table.ParseArgs Args) →
      parseArgs Table inv Args Diags = some (false, inv1, Diags1) →
      parseArgs Table inv1 Args Diags1 = some (false, inv2, Diags2) →
      (∃ A ∈ (Table.ParseArgs Args).Args, appendsToList A = true) →
      inv2 ≠ inv1) := by
  constructor
  · intro inv inv1 inv2 Args1 Args2 Args12 Diags Diags1 Diags2 hlen1 hlen2 hlen12 hM hcat h1 h2
    obtain ⟨O1, hP1, hW1, rfl⟩ := parseArgs_success hlen1 h1
    obtain ⟨O2, hP2, hW2, rfl⟩ := parseArgs_success hlen2 h2
    obtain ⟨hP, hW⟩ := resolve_append hP1 hW1 hP2 hW2
    have hU : hasArg (Table.ParseArgs Args12).Args OptID.OPT_UNKNOWN = false := by
      rw [Bool.eq_false_iff, Ne, hasArg_iff, hcat]
      rintro ⟨A, hA, hopt⟩
      rcases List.mem_append.mp hA with hA1 | hA2
      · have := (hasArg_iff _ _).mpr ⟨A, hA1, hopt⟩
        rw [parseArgs_success_no_unknown hlen1 h1] at this
        exact absurd this (by simp)
      · have := (hasArg_iff _ _).mpr ⟨A, hA2, hopt⟩
        rw [parseArgs_success_no_unknown hlen2 h2] at this
        exact absurd this (by simp)
    rw [← hcat] at hP hW
    by_cases hE : Args12 = []
    · subst hE
      unfold EntriesWithinArgs at hlen12
      have hnil : (Table.ParseArgs []).Args = [] := by
        apply List.eq_nil_of_length_eq_zero
        simpa using hlen12
      rw [hnil] at hP hW
      simp only [ParseFrontendArgs, assignLastValue, getLastArg, filtered, pushInputs,
        List.foldl_nil, List.filter_nil, Option.some_bind, Option.some.injEq,
        Prod.mk.injEq, true_and] at hP
      subst hP
      simp only [walk, Option.some.injEq] at hW
      subst hW
      rfl
    · unfold parseArgs
      have hE2 : Args12.isEmpty = false := by
        cases Args12 with
        | nil => exact absurd rfl hE
        | cons a l => rfl
      simp only [hE2, Bool.false_eq_true, if_false, hM, ne_eq, not_true_eq_false, hU, hP, hW]
  · intro inv inv1 inv2 Args Diags Diags1 Diags2 hlen h1 h2 hex
    obtain ⟨O2, hP2, hW2, -⟩ := parseArgs_success hlen h2
    obtain ⟨A, hA, happ⟩ := hex
    have hF : inv2.FrontendOpts = O2 :=
      walk_unchanged (fun i => i.FrontendOpts) (fun _ _ _ hs => walkStep_FrontendOpts hs)
        _ _ _ hW2
    unfold appendsToList at happ
    simp only [Bool.or_eq_true, decide_eq_true_eq] at happ
    intro heq
    rcases happ with hopt | hopt | hopt | hopt | hopt | hopt
    · obtain ⟨-, -, -, hN⟩ := ParseFrontendArgs_some hP2
      have hgrow := pushInputs_some _ _ _ hN
      unfold filtered at hgrow
      refine longer_of_appended hgrow
        (map_filter_ne_nil Arg.getValue hA (by simpa using hopt)) ?_
      rw [← hF, heq]
    · have hgrow := walk_accumulates (fun i => i.ImportSearchPaths)
        (fun A => decide (A.Opt = OptID.OPT_I)) Arg.getValue
        (fun _ _ _ hs => walkStep_ImportSearchPaths hs) _ { inv1 with FrontendOpts := O2 } _ hW2
      exact longer_of_appended hgrow
        (map_filter_ne_nil Arg.getValue hA (by simpa using hopt)) (by rw [heq])
    · have hgrow := walk_accumulates (fun i => i.FrameworkSearchPaths)
        (fun A => decide (A.Opt = OptID.OPT_F)) Arg.getValue
        (fun _ _ _ hs => walkStep_FrameworkSearchPaths hs) _
        { inv1 with FrontendOpts := O2 } _ hW2
      exact longer_of_appended hgrow
        (map_filter_ne_nil Arg.getValue hA (by simpa using hopt)) (by rw [heq])
    · have hgrow := walk_accumulates (fun i => i.ExtraClangArgs)
        (fun A => decide (A.Opt = OptID.OPT_Xcc)) Arg.getValue
        (fun _ _ _ hs => walkStep_ExtraClangArgs hs) _ { inv1 with FrontendOpts := O2 } _ hW2
      exact longer_of_appended hgrow
        (map_filter_ne_nil Arg.getValue hA (by simpa using hopt)) (by rw [heq])
    · have hgrow := walk_accumulates (fun i => i.LinkLibraries)
        (fun A => decide (A.Opt = OptID.OPT_l) || decide (A.Opt = OptID.OPT_framework))
        linkRequest (fun _ _ _ hs => walkStep_LinkLibraries hs) _
        { inv1 with FrontendOpts := O2 } _ hW2
      exact longer_of_appended hgrow
        (map_filter_ne_nil linkRequest hA (by simp [hopt])) (by rw [heq])
    · have hgrow := walk_accumulates (fun i => i.LinkLibraries)
        (fun A => decide (A.Opt = OptID.OPT_l) || decide (A.Opt = OptID.OPT_framework))
        linkRequest (fun _ _ _ hs => walkStep_LinkLibraries hs) _
        { inv1 with FrontendOpts := O2 } _ hW2
      exact longer_of_appended hgrow
        (map_filter_ne_nil linkRequest hA (by simp [hopt])) (by rw [heq])


/-- C19, amended, on the example catalog: the list with a positional argument
and `-I`, resolved twice in a row and resolved once as its own double. -/
theorem resolution_composes_witness :
    parseArgs exampleTable examplePreset exampleArgsFlags []
      = some (false, examplePresetResolved, []) ∧
    parseArgs exampleTable examplePresetResolved exampleArgsFlags []
      = some (false, examplePresetResolvedTwice, []) ∧
    (∃ A ∈ (exampleTable.ParseArgs exampleArgsFlags).Args, appendsToList A = true) ∧
    parseArgs exampleTable examplePreset (exampleArgsFlags ++ exampleArgsFlags) []
      = some (false, examplePresetResolvedTwice, []) ∧
    examplePresetResolvedTwice ≠ examplePresetResolved :=
  ⟨by decide, by decide, by decide,
   (resolution_composes exampleTable).1 examplePreset examplePresetResolved
     examplePresetResolvedTwice exampleArgsFlags exampleArgsFlags
     (exampleArgsFlags ++ exampleArgsFlags) [] [] []
     (by decide) (by decide) (by decide) (by decide) (by decide) (by decide) (by decide),
   (resolution_composes exampleTable).2 examplePreset examplePresetResolved
     examplePresetResolvedTwice exampleArgsFlags [] [] []
     (by decide) (by decide) (by decide) (by decide)⟩


/-! ## The path primitives -/

theorem sepAt_append_left (P Q : List Char) (i : Nat) (h : i < P.length) :
    sepAt (P ++ Q) i = sepAt P i := by
  unfold sepAt
  rw [List.getElem?_append_left h]

theorem sepAt_append_right (P Q : List Char) (i : Nat) (h : P.length ≤ i) :
    sepAt (P ++ Q) i = sepAt Q (i - P.length) := by
  unfold sepAt
  rw [List.getElem?_append_right h]

theorem sepAt_of_no_separator (C : List Char) (hC : ∀ c ∈ C, is_separator c = false)
    (i : Nat) : sepAt C i = false := by
  unfold sepAt
  cases h : C[i]? with
  | none => rfl
  | some c => exact hC c (List.getElem?_mem h)

theorem rfindLoop_skip (str : List Char) (m n : Nat) (hmn : m ≤ n)
    (h : ∀ i, m ≤ i → i < n → sepAt str i = false) :
    rfindLoop str n = rfindLoop str m := by
  induction n with
  | zero =>
    have : m = 0 := by omega
    rw [this]
  | succ k ih =>
    by_cases hm : m = k + 1
    · rw [hm]
    · have hk : m ≤ k := by omega
      have hstep : rfindLoop str (k + 1) = rfindLoop str k := by
        conv_lhs => unfold rfindLoop
        rw [h k hk (by omega)]
        simp
      rw [hstep]
      exact ih hk (fun i hi1 hi2 => h i hi1 (by omega))

theorem rfindLoop_lt (str : List Char) (n pos : Nat) (h : rfindLoop str n = some pos) :
    pos < n := by
  induction n with
  | zero => simp [rfindLoop] at h
  | succ k ih =>
    unfold rfindLoop at h
    split at h
    · simp only [Option.some.injEq] at h
      omega
    · have := ih h
      omega

theorem rfindLoop_none (str : List Char) (n : Nat)
    (h : ∀ i, i < n → sepAt str i = false) : rfindLoop str n = none := by
  rw [rfindLoop_skip str 0 n (Nat.zero_le n) (fun i _ hi => h i hi)]
  rfl

theorem sepAt_eq_of_getElem {str : List Char} {i : Nat} {c : Char} (h : str[i]? = some c) :
    sepAt str i = is_separator c := by
  unfold sepAt
  rw [h]

/-- The position of the filename in a path `...c/name`: right after the last
separator. -/
theorem filename_pos_after_separator (Z : List Char) (n : Nat) (c : Char)
    (hn : 1 ≤ n) (hlen : n + 1 < Z.length)
    (hsep : Z[n]? = some '/')
    (hprev : Z[n - 1]? = some c) (hc : is_separator c = false)
    (hafter : ∀ i, n < i → sepAt Z i = false) :
    filename_pos Z = n + 1 := by
  have hfind : find_last_of Z (Z.length - 1) = some n := by
    unfold find_last_of
    rw [Nat.min_eq_left (Nat.sub_le _ _),
      rfindLoop_skip Z (n + 1) (Z.length - 1) (by omega) (fun i hi _ => hafter i (by omega))]
    unfold rfindLoop
    rw [sepAt_eq_of_getElem hsep]
    rfl
  unfold filename_pos
  rw [if_neg (by omega), if_neg (by
    rintro ⟨-, h⟩
    rw [hafter (Z.length - 1) (by omega)] at h
    exact absurd h (by simp)), hfind]
  simp only
  rw [if_neg]
  rintro ⟨h1, h0⟩
  subst h1
  rw [sepAt_eq_of_getElem hprev, hc] at h0
  exact absurd h0 (by simp)

theorem skipSeparators_one_separator (Z : List Char) (r : Option Nat) (n : Nat) (c : Char)
    (hn : 1 ≤ n) (hsep : Z[n]? = some '/')
    (hprev : Z[n - 1]? = some c) (hc : is_separator c = false) :
    skipSeparators Z r (n + 1) = some (if r = some n then n + 1 else n) := by
  unfold skipSeparators
  by_cases hr : some n = r
  · rw [if_pos hr, if_pos hr.symm]
  · rw [if_neg hr, if_neg (fun h => hr h.symm), hsep]
    simp only
    have hsl : is_separator '/' = true := rfl
    rw [if_pos hsl]
    obtain ⟨m, rfl⟩ : ∃ m, n = m + 1 := ⟨n - 1, by omega⟩
    unfold skipSeparators
    simp only [Nat.add_sub_cancel] at hprev
    by_cases hr2 : some m = r
    · rw [if_pos hr2]
    · rw [if_neg hr2, hprev]
      simp only
      rw [hc]
      simp

/-- Removing the filename of a path `...c/name`, where `c` is not a separator
and `name` has none: the path is cut before the last separator, or right
after it when that separator is the root directory. -/
theorem remove_filename_after_separator (Z : List Char) (n : Nat) (c : Char)
    (hn : 1 ≤ n) (hlen : n + 1 < Z.length)
    (hsep : Z[n]? = some '/')
    (hprev : Z[n - 1]? = some c) (hc : is_separator c = false)
    (hafter : ∀ i, n < i → sepAt Z i = false) :
    remove_filename Z
      = some (if root_dir_start (Z.take (n + 1)) = some n then Z.take (n + 1)
          else Z.take n) := by
  have hpos := filename_pos_after_separator Z n c hn hlen hsep hprev hc hafter
  obtain ⟨d, hd⟩ : ∃ d, Z[n + 1]? = some d := ⟨Z[n + 1], List.getElem?_eq_getElem hlen⟩
  have hdsep : is_separator d = false := by
    rw [← sepAt_eq_of_getElem hd]
    exact hafter (n + 1) (by omega)
  have hpar : parent_path_end Z
      = some (some (if root_dir_start (Z.take (n + 1)) = some n then n + 1 else n)) := by
    unfold parent_path_end
    rw [hpos, if_pos (by omega), hd]
    simp only [Option.map_some', hdsep]
    rw [skipSeparators_one_separator Z _ n c hn hsep hprev hc]
    simp
  unfold remove_filename
  rw [hpar]
  simp only
  split <;> rfl


theorem findLoop_spec (str : List Char) (left i k : Nat) (h : findLoop str left i = some k) :
    i ≤ k ∧ sepAt str k = true ∧ ∀ j, i ≤ j → j < k → sepAt str j = false := by
  induction left generalizing i with
  | zero => simp [findLoop] at h
  | succ m ih =>
    unfold findLoop at h
    by_cases hs : sepAt str i = true
    · rw [if_pos hs] at h
      simp only [Option.some.injEq] at h
      subst h
      exact ⟨Nat.le_refl _, hs, fun j h1 h2 => by omega⟩
    · rw [if_neg hs] at h
      obtain ⟨h1, h2, h3⟩ := ih (i + 1) h
      refine ⟨by omega, h2, fun j hj1 hj2 => ?_⟩
      by_cases hji : j = i
      · rw [hji]; simpa using hs
      · exact h3 j (by omega) hj2

/-- The root directory, when a path has one, sits at a separator, the path
starts with a separator, and no separator stands between index 2 and it. -/
theorem root_dir_start_spec (str : List Char) (k : Nat) (h : root_dir_start str = some k) :
    sepAt str 0 = true ∧ ∀ j, 2 ≤ j → j < k → sepAt str j = false := by
  unfold root_dir_start at h
  split at h
  · simp at h
  · split at h
    · rename_i hnet
      unfold find_first_of at h
      have hmin : min 2 str.length = 2 := by omega
      rw [hmin] at h
      obtain ⟨-, -, h3⟩ := findLoop_spec str _ 2 k h
      exact ⟨hnet.2.1, h3⟩
    · split at h
      · rename_i hroot
        simp only [Option.some.injEq] at h
        subst h
        exact ⟨hroot.2, fun j h1 h2 => by omega⟩
      · simp at h

/-- The shape `P/C` of a path: `P` ends in a character that is not a
separator, `C` is a component. -/
theorem path_shape (P0 C : List Char) (c : Char) (hC : ∀ x ∈ C, is_separator x = false) :
    (P0 ++ [c] ++ '/' :: C)[(P0 ++ [c]).length]? = some '/' ∧
    (P0 ++ [c] ++ '/' :: C)[(P0 ++ [c]).length - 1]? = some c ∧
    (∀ i, (P0 ++ [c]).length < i → sepAt (P0 ++ [c] ++ '/' :: C) i = false) ∧
    (P0 ++ [c] ++ '/' :: C).take ((P0 ++ [c]).length + 1) = P0 ++ [c] ++ ['/'] ∧
    (P0 ++ [c] ++ '/' :: C).take (P0 ++ [c]).length = P0 ++ [c] := by
  refine ⟨?_, ?_, ?_, ?_, ?_⟩
  · rw [List.getElem?_append_right (Nat.le_refl _)]
    simp
  · rw [List.getElem?_append_left (by simp)]
    simp
  · intro i hi
    rw [sepAt_append_right _ _ _ (by omega)]
    obtain ⟨m, hm⟩ : ∃ m, i - (P0 ++ [c]).length = m + 1 :=
      ⟨i - (P0 ++ [c]).length - 1, by omega⟩
    rw [hm]
    unfold sepAt
    rw [List.getElem?_cons_succ]
    exact sepAt_of_no_separator C hC m
  · have : P0 ++ [c] ++ '/' :: C = (P0 ++ [c] ++ ['/']) ++ C := by simp
    rw [this]
    exact List.take_left' (by simp)
  · exact List.take_left _ _

/-- Removing the filename of `P/C`: what is left is `P`, or `P/` when that
separator is the root directory. -/
theorem remove_filename_component (P0 C : List Char) (c : Char)
    (hc : is_separator c = false) (hne : C ≠ [])
    (hC : ∀ x ∈ C, is_separator x = false) :
    remove_filename (P0 ++ [c] ++ '/' :: C)
      = some (if root_dir_start (P0 ++ [c] ++ ['/']) = some (P0 ++ [c]).length
          then P0 ++ [c] ++ ['/'] else P0 ++ [c]) := by
  obtain ⟨h1, h2, h3, h4, h5⟩ := path_shape P0 C c hC
  have hlen : (P0 ++ [c]).length + 1 < (P0 ++ [c] ++ '/' :: C).length := by
    have : 0 < C.length := List.length_pos.mpr hne
    simp only [List.length_append, List.length_cons, List.length_nil]
    omega
  rw [remove_filename_after_separator _ (P0 ++ [c]).length c (by simp) hlen h1 h2 hc h3,
    h4, h5]

/-- Below a directory `R/D` the separator before the filename is never the
root directory. -/
theorem root_dir_start_below_directory (R0 D : List Char) (c : Char)
    (hc : is_separator c = false) :
    root_dir_start (R0 ++ [c] ++ '/' :: D ++ ['/']) ≠ some (R0 ++ [c] ++ '/' :: D).length := by
  intro h
  obtain ⟨h0, hmin⟩ := root_dir_start_spec _ _ h
  cases R0 with
  | nil =>
    have : sepAt ([] ++ [c] ++ '/' :: D ++ ['/']) 0 = is_separator c := rfl
    rw [this, hc] at h0
    exact absurd h0 (by simp)
  | cons a R1 =>
    have hj := hmin ((a :: R1) ++ [c]).length (by simp)
      (by simp only [List.length_append, List.length_cons, List.length_nil]; omega)
    have hsep : sepAt ((a :: R1) ++ [c] ++ '/' :: D ++ ['/']) ((a :: R1) ++ [c]).length
        = true := by
      have : (a :: R1) ++ [c] ++ '/' :: D ++ ['/'] = ((a :: R1) ++ [c]) ++ ('/' :: (D ++ ['/'])) := by
        simp
      rw [this, sepAt_append_right _ _ _ (Nat.le_refl _), Nat.sub_self]
      simp [sepAt, is_separator]
    rw [hsep] at hj
    exact absurd hj (by simp)


theorem filename_pos_lt (str : List Char) (h : 0 < str.length) :
    filename_pos str < str.length := by
  unfold filename_pos
  split
  · exact h
  · split
    · omega
    · split
      · exact h
      · rename_i pos hpos
        unfold find_last_of at hpos
        have := rfindLoop_lt _ _ _ hpos
        have hmin : min (str.length - 1) str.length = str.length - 1 :=
          Nat.min_eq_left (Nat.sub_le _ _)
        rw [hmin] at this
        split
        · exact h
        · omega

theorem skipSeparators_total (path : List Char) (r : Option Nat) (e : Nat)
    (h : e ≤ path.length) : ∃ e1, skipSeparators path r e = some e1 := by
  induction e with
  | zero => exact ⟨0, rfl⟩
  | succ k ih =>
    unfold skipSeparators
    split
    · exact ⟨k + 1, rfl⟩
    · have hk : k < path.length := by omega
      rw [List.getElem?_eq_getElem hk]
      simp only
      split
      · exact ih (by omega)
      · exact ⟨k + 1, rfl⟩

/-- The filename can be removed from every path: no read is past the end. -/
theorem remove_filename_total (path : List Char) : ∃ r, remove_filename path = some r := by
  have hpar : ∃ e, parent_path_end path = some e := by
    unfold parent_path_end
    by_cases hlen : 0 < path.length
    · have hpos := filename_pos_lt path hlen
      rw [if_pos hlen, List.getElem?_eq_getElem hpos]
      simp only [Option.map_some']
      obtain ⟨e1, he1⟩ := skipSeparators_total path
        (root_dir_start (path.take (filename_pos path))) (filename_pos path) (by omega)
      rw [he1]
      simp only
      split
      · exact ⟨_, rfl⟩
      · exact ⟨_, rfl⟩
    · rw [if_neg hlen]
      simp only
      have hnil : path = [] := List.eq_nil_of_length_eq_zero (by omega)
      subst hnil
      exact ⟨some 0, by decide⟩
  obtain ⟨e, he⟩ := hpar
  unfold remove_filename
  rw [he]
  cases e with
  | none => exact ⟨_, rfl⟩
  | some e1 => exact ⟨_, rfl⟩

/-- A path without a separator is its own filename: nothing is left. -/
theorem remove_filename_no_separator (S : List Char)
    (hS : ∀ x ∈ S, is_separator x = false) : remove_filename S = some [] := by
  have hsep : ∀ i, sepAt S i = false := sepAt_of_no_separator S hS
  have hpos : filename_pos S = 0 := by
    unfold filename_pos
    rw [if_neg (by rintro ⟨-, h, -⟩; rw [hsep] at h; exact absurd h (by simp)),
      if_neg (by rintro ⟨-, h⟩; rw [hsep] at h; exact absurd h (by simp))]
    unfold find_last_of
    rw [rfindLoop_none S _ (fun i _ => hsep i)]
  have hpar : parent_path_end S = some (some 0) := by
    unfold parent_path_end
    rw [hpos, List.take_zero]
    by_cases hlen : 0 < S.length
    · rw [if_pos hlen, List.getElem?_eq_getElem hlen]
      have h0 := hsep 0
      unfold sepAt at h0
      rw [List.getElem?_eq_getElem hlen] at h0
      simp only at h0
      simp only [Option.map_some', h0]
      rfl
    · rw [if_neg hlen]
      rfl
  unfold remove_filename
  rw [hpar]
  rfl

theorem appendComponent_after_name (path component : List Char) (x y : Char)
    (hx : is_separator x = false) (hy : component.head? = some y)
    (hysep : is_separator y = false) (hroot : has_root_name component = false) :
    appendComponent (path ++ [x]) component = path ++ [x] ++ '/' :: component := by
  unfold appendComponent
  rw [List.getLast?_concat, hy]
  simp [hx, hysep, hroot]

theorem appendComponent_after_separator (path component : List Char) (y : Char)
    (hy : component.head? = some y) (hysep : is_separator y = false) :
    appendComponent (path ++ ['/']) component = path ++ ['/'] ++ component := by
  unfold appendComponent
  rw [List.getLast?_concat]
  have hsl : is_separator '/' = true := rfl
  simp only [hsl, if_true]
  cases component with
  | nil => simp at hy
  | cons a rest =>
    simp only [List.head?_cons, Option.some.injEq] at hy
    subst hy
    rw [List.dropWhile_cons_of_neg (by simp [hysep])]

/-- Appending `lib` and `swift` to a path that ends in a name, or in that
name and one separator. -/
theorem append_lib_swift (P0 : List Char) (c : Char) (hc : is_separator c = false) :
    append (P0 ++ [c]) "lib".data "swift".data = P0 ++ [c] ++ "/lib/swift".data ∧
    append (P0 ++ [c] ++ ['/']) "lib".data "swift".data = P0 ++ [c] ++ "/lib/swift".data := by
  have hlib : "lib".data = ['l', 'i', 'b'] := rfl
  have hswift : "swift".data = ['s', 'w', 'i', 'f', 't'] := rfl
  have hres : "/lib/swift".data = ['/', 'l', 'i', 'b', '/', 's', 'w', 'i', 'f', 't'] := rfl
  have hfilter : ([['l', 'i', 'b'], ['s', 'w', 'i', 'f', 't']].filter (fun c => !c.isEmpty))
      = [['l', 'i', 'b'], ['s', 'w', 'i', 'f', 't']] := rfl
  have hl : is_separator 'l' = false := rfl
  have hs : is_separator 's' = false := rfl
  have hb : is_separator 'b' = false := rfl
  have hstep2 : ∀ Q : List Char, appendComponent (Q ++ ['l', 'i', 'b']) ['s', 'w', 'i', 'f', 't']
      = Q ++ ['l', 'i', 'b', '/', 's', 'w', 'i', 'f', 't'] := by
    intro Q
    have : Q ++ ['l', 'i', 'b'] = (Q ++ ['l', 'i']) ++ ['b'] := by simp
    rw [this, appendComponent_after_name _ ['s', 'w', 'i', 'f', 't'] 'b' 's' hb rfl hs rfl]
    simp
  unfold append
  rw [hlib, hswift, hres, hfilter]
  simp only [List.foldl_cons, List.foldl_nil]
  constructor
  · rw [appendComponent_after_name P0 ['l', 'i', 'b'] c 'l' hc rfl hl rfl]
    have : P0 ++ [c] ++ ['/', 'l', 'i', 'b'] = (P0 ++ [c] ++ ['/']) ++ ['l', 'i', 'b'] := by simp
    rw [this, hstep2]
    simp
  · rw [appendComponent_after_separator (P0 ++ [c]) ['l', 'i', 'b'] 'l' rfl hl, hstep2]
    simp


/-- The path derivation on characters, for a path `R/D/E`. -/
theorem derive_from_installed_path (R0 D E : List Char) (c : Char)
    (hc : is_separator c = false)
    (hD : D ≠ []) (hDs : ∀ x ∈ D, is_separator x = false)
    (hE : E ≠ []) (hEs : ∀ x ∈ E, is_separator x = false) :
    ∃ p1 p2, remove_filename (R0 ++ [c] ++ '/' :: D ++ '/' :: E) = some p1 ∧
      remove_filename p1 = some p2 ∧
      append p2 "lib".data "swift".data = R0 ++ [c] ++ "/lib/swift".data := by
  obtain ⟨d, hd⟩ : ∃ d, D.getLast? = some d := by
    cases hl : D.getLast? with
    | none => exact absurd (List.getLast?_eq_none_iff.mp hl) hD
    | some d => exact ⟨d, rfl⟩
  obtain ⟨D0, hD0⟩ := List.getLast?_eq_some_iff.mp hd
  have hdsep : is_separator d = false := hDs d (by rw [hD0]; simp)
  have hshape : R0 ++ [c] ++ '/' :: D ++ '/' :: E
      = (R0 ++ [c] ++ '/' :: D0) ++ [d] ++ '/' :: E := by
    rw [hD0]; simp
  have hshape2 : (R0 ++ [c] ++ '/' :: D0) ++ [d] = R0 ++ [c] ++ '/' :: D := by
    rw [hD0]; simp
  have h1 := remove_filename_component (R0 ++ [c] ++ '/' :: D0) E d hdsep hE hEs
  rw [← hshape, hshape2] at h1
  have hnot := root_dir_start_below_directory R0 D c hc
  rw [if_neg hnot] at h1
  have h2 := remove_filename_component R0 D c hc hD hDs
  obtain ⟨ha1, ha2⟩ := append_lib_swift R0 c hc
  refine ⟨_, _, h1, h2, ?_⟩
  split
  · exact ha2
  · exact ha1

/-- C13: for an executable path `root/dir/exe`, where `dir` and `exe` are
non-empty components without a separator and `root` is a non-empty path that
does not end in a separator, `setMainExecutablePath` runs to its end and sets
the runtime include path to `root/lib/swift`; for
`/opt/toolchain/bin/frontend` that is `/opt/toolchain/lib/swift`. -/
theorem setMainExecutablePath_installed (inv : CompilerInvocation) (root dir exe : String)
    (hroot : endsInName root = true) (hdir : isComponent dir = true)
    (hexe : isComponent exe = true) :
    setMainExecutablePath inv (root ++ "/" ++ dir ++ "/" ++ exe)
      = some { inv with RuntimeIncludePath := some (root ++ "/lib/swift") } ∧
    setMainExecutablePath inv "/opt/toolchain/bin/frontend"
      = some { inv with RuntimeIncludePath := some "/opt/toolchain/lib/swift" } := by
  constructor
  · unfold endsInName at hroot
    obtain ⟨c, hlast, hc⟩ : ∃ c, root.data.getLast? = some c ∧ is_separator c = false := by
      cases hl : root.data.getLast? with
      | none => rw [hl] at hroot; simp at hroot
      | some c => rw [hl] at hroot; exact ⟨c, rfl, by simpa using hroot⟩
    obtain ⟨R0, hR0⟩ := List.getLast?_eq_some_iff.mp hlast
    unfold isComponent at hdir hexe
    simp only [Bool.and_eq_true, Bool.not_eq_true', List.all_eq_true] at hdir hexe
    have hD : dir.data ≠ [] := by
      intro h; rw [h] at hdir; simp at hdir
    have hE : exe.data ≠ [] := by
      intro h; rw [h] at hexe; simp at hexe
    obtain ⟨p1, p2, h1, h2, h3⟩ := derive_from_installed_path R0 dir.data exe.data c hc hD
      hdir.2 hE hexe.2
    have hdata : (root ++ "/" ++ dir ++ "/" ++ exe).data
        = R0 ++ [c] ++ '/' :: dir.data ++ '/' :: exe.data := by
      have hs : "/".data = ['/'] := rfl
      simp only [String.data_append, hR0, hs]
      simp
    unfold setMainExecutablePath
    rw [hdata, h1]
    simp only
    rw [h2]
    simp only
    rw [h3]
    unfold setRuntimeIncludePath
    have : String.mk (R0 ++ [c] ++ "/lib/swift".data) = root ++ "/lib/swift" := by
      apply String.ext
      simp only [String.data_append, hR0]
    rw [this]
  · have h1 : remove_filename "/opt/toolchain/bin/frontend".data
        = some "/opt/toolchain/bin".data := by decide
    have h2 : remove_filename "/opt/toolchain/bin".data = some "/opt/toolchain".data := by
      decide
    have h3 : String.mk (append "/opt/toolchain".data "lib".data "swift".data)
        = "/opt/toolchain/lib/swift" := by decide
    unfold setMainExecutablePath
    rw [h1]
    simp only
    rw [h2]
    simp only
    rw [h3]
    rfl

/-- C13, for a root that is a network name. -/
theorem setMainExecutablePath_installed_witness :
    endsInName "//net" = true ∧ isComponent "bin" = true ∧ isComponent "swift" = true ∧
    (setMainExecutablePath examplePreset ("//net" ++ "/" ++ "bin" ++ "/" ++ "swift")
      = some { examplePreset with RuntimeIncludePath := some ("//net" ++ "/lib/swift") } ∧
    setMainExecutablePath examplePreset "/opt/toolchain/bin/frontend"
      = some { examplePreset with RuntimeIncludePath := some "/opt/toolchain/lib/swift" }) :=
  ⟨by decide, by decide, by decide,
   setMainExecutablePath_installed examplePreset "//net" "bin" "swift"
     (by decide) (by decide) (by decide)⟩

/-- C14: `setMainExecutablePath` is total: for every string, the empty one
and the paths of fewer than two components included, it runs to its end
without a read past the end of the path; and for every string without a
separator the runtime include path it sets is the relative path
`lib/swift`. -/
theorem setMainExecutablePath_total (inv : CompilerInvocation) (Path : String) :
    (∃ LibPath : String, setMainExecutablePath inv Path
      = some { inv with RuntimeIncludePath := some LibPath }) ∧
    ((∀ c ∈ Path.data, is_separator c = false) →
      setMainExecutablePath inv Path
        = some { inv with RuntimeIncludePath := some "lib/swift" }) ∧
    setMainExecutablePath inv "" = some { inv with RuntimeIncludePath := some "lib/swift" } := by
  refine ⟨?_, ?_, ?_⟩
  · obtain ⟨p1, h1⟩ := remove_filename_total Path.data
    obtain ⟨p2, h2⟩ := remove_filename_total p1
    unfold setMainExecutablePath
    rw [h1]
    simp only
    rw [h2]
    exact ⟨_, rfl⟩
  · intro hS
    have h1 := remove_filename_no_separator Path.data hS
    have h2 : remove_filename [] = some [] := by decide
    unfold setMainExecutablePath
    rw [h1]
    simp only
    rw [h2]
    rfl
  · have h2 : remove_filename [] = some [] := by decide
    unfold setMainExecutablePath
    have hd : "".data = [] := rfl
    rw [hd, h2]
    simp only
    rw [h2]
    rfl

/-- C14, on a single component and on a path of one directory. -/
theorem setMainExecutablePath_total_witness :
    setMainExecutablePath examplePreset "frontend"
      = some { examplePreset with RuntimeIncludePath := some "lib/swift" } ∧
    ∃ LibPath : String, setMainExecutablePath examplePreset "bin/frontend"
      = some { examplePreset with RuntimeIncludePath := some LibPath } :=
  ⟨(setMainExecutablePath_total examplePreset "frontend").2.1 (by decide),
   (setMainExecutablePath_total examplePreset "bin/frontend").1⟩


end Swift
